import Mathlib

/-!
Shallow embedding of the lib0 binary decoder (`decoding.js`) together with
theorems checking the specification's claims about it.

The decoder is modelled exactly as in the JavaScript source:

* a `Decoder` owns an immutable byte sequence (a `List Nat`, each entry a
  byte `< 256` — JavaScript `Uint8Array` guarantees this) and a cursor `pos`;
* JavaScript 32-bit bitwise arithmetic (`|`, `&`, `<<`, `>>> 0`) is modelled
  by `toUint32` / `toInt32` / `jsOr` / `jsAnd` / `jsShl` over `Int` and `Nat`,
  including the ECMAScript rule that shift counts are taken modulo 32;
* an out-of-bounds indexed read `arr[pos]` yields JavaScript `undefined`,
  modelled by `Option`/`JsVal`; `undefined` coerces to `0` under `ToInt32`
  and makes `<` comparisons false, exactly as in ECMAScript;
* exceptions are modelled by `Except`; since a thrown exception leaves the
  mutated decoder behind in JavaScript, every operation returns the final
  decoder state next to its `Except` result.
-/

namespace Lib0

/-- Error conditions of the decoder, named as in the specification's
error taxonomy. -/
inductive Err where
  | IntegerOutOfRange
  | BufferUnderrun
  | UnknownTag
deriving DecidableEq, Repr

/-- Constants from `binary.js`. Modelled from the spec: `binary.js` is not
among the provided sources; the wire-format table fixes `BITS7 = 0x7f`
(low 7 bits), `BIT8 = 0x80` (continuation bit), `BITS6 = 0x3f`
(low 6 bits) and `BIT7 = 0x40` (sign bit of the first varInt byte). -/
def BITS7 : Nat := 127

/-- Continuation bit `0x80` (see `BITS7`). -/
def BIT8 : Nat := 128

/-- Low six bits mask `0x3f` (see `BITS7`). -/
def BITS6 : Nat := 63

/-- Sign bit `0x40` of the first varInt byte (see `BITS7`). -/
def BIT7 : Nat := 64

/-- ECMAScript `ToUint32` of an integral number. -/
def toUint32 (x : Int) : Nat := (x % 4294967296).toNat

/-- Reinterpret a 32-bit unsigned value as a signed 32-bit integer
(the value ECMAScript bitwise operators return). -/
def ofUint32 (n : Nat) : Int := if n < 2147483648 then (n : Int) else (n : Int) - 4294967296

/-- ECMAScript `ToInt32` of an integral number. -/
def toInt32 (x : Int) : Int := ofUint32 (toUint32 x)

/-- JavaScript `a & b` on integral numbers. -/
def jsAnd (a b : Int) : Int := ofUint32 (toUint32 a &&& toUint32 b)

/-- JavaScript `a | b` on integral numbers. -/
def jsOr (a b : Int) : Int := ofUint32 (toUint32 a ||| toUint32 b)

/-- JavaScript `a << b` on integral numbers: the shift count is taken
modulo 32 and the result is a signed 32-bit integer. -/
def jsShl (a : Int) (b : Nat) : Int := ofUint32 (toUint32 a * 2 ^ (b % 32) % 4294967296)

/-- A JavaScript number-or-undefined value, as produced by indexing a
`Uint8Array`: either a proper (integral) number, `NaN`, or `undefined`. -/
inductive JsVal where
  | undefined
  | nan
  | num (x : Int)
deriving DecidableEq, Repr

/-- ECMAScript `ToInt32` on a `JsVal`: `undefined` and `NaN` coerce to 0. -/
def JsVal.asInt32 : JsVal → Int
  | .undefined => 0
  | .nan => 0
  | .num x => toInt32 x

/-- JavaScript `+` on two `JsVal`s: `undefined` and `NaN` operands give `NaN`. -/
def jsAdd : JsVal → JsVal → JsVal
  | .num a, .num b => .num (a + b)
  | _, _ => .nan

/-- JavaScript `v << k` on a `JsVal` (the operand goes through `ToInt32`). -/
def jsShlV (v : JsVal) (k : Nat) : JsVal := .num (jsShl v.asInt32 k)

/-- JavaScript `v >>> 0` on a `JsVal` (`ToUint32`; `NaN`/`undefined` give 0). -/
def jsShrU0 : JsVal → Nat
  | .num x => toUint32 x
  | _ => 0

/-- A Decoder handles the decoding of an Uint8Array
(class `Decoder` in the source): the byte array and the cursor. -/
structure Decoder where
  arr : List Nat
  pos : Nat
deriving DecidableEq, Repr

/-- `createDecoder` from the source. -/
def createDecoder (uint8Array : List Nat) : Decoder := ⟨uint8Array, 0⟩

/-- `hasContent` from the source. -/
def hasContent (decoder : Decoder) : Bool := decoder.pos != decoder.arr.length

/-- `clone` from the source, with the optional `newPos` argument explicit. -/
def clone (decoder : Decoder) (newPos : Nat) : Decoder :=
  { createDecoder decoder.arr with pos := newPos }

/-- `clone` with its default argument (`newPos = decoder.pos`). -/
def cloneDefault (decoder : Decoder) : Decoder := clone decoder decoder.pos

/-- The byte at index `i`, or `none` when `i` is out of bounds
(JavaScript indexing yields `undefined` there). -/
def byteAt (d : Decoder) (i : Nat) : Option Nat := d.arr[i]?

/-- The byte at index `i` as the JavaScript value `arr[i]`. -/
def jsByte (d : Decoder) (i : Nat) : JsVal :=
  match byteAt d i with
  | some b => .num b
  | none => .undefined

/-- Advance the cursor by `k`. -/
def bump (d : Decoder) (k : Nat) : Decoder := { d with pos := d.pos + k }

/-- `readUint8Array` from the source. The underlying
`buffer.createUint8ArrayViewFromArrayBuffer` is modelled from the spec:
`buffer.js` is not among the provided sources; per the spec, reading past
the end of the buffer is a fatal `BufferUnderrun` condition, and on
success a view of the next `len` bytes is returned and the cursor
advances by `len`. The view is modelled as the byte list itself. -/
def readUint8Array (decoder : Decoder) (len : Nat) : Except Err (List Nat) × Decoder :=
  if decoder.pos + len ≤ decoder.arr.length then
    (.ok ((decoder.arr.drop decoder.pos).take len), bump decoder len)
  else
    (.error .BufferUnderrun, decoder)

/-- `skip8` from the source: `decoder.pos++` (returns the old position). -/
def skip8 (decoder : Decoder) : Nat × Decoder := (decoder.pos, bump decoder 1)

/-- `readUint8` from the source: `decoder.arr[decoder.pos++]`.
No bounds check is performed; past the end the result is `undefined`. -/
def readUint8 (decoder : Decoder) : JsVal × Decoder := (jsByte decoder decoder.pos, bump decoder 1)

/-- `peekUint8` from the source. -/
def peekUint8 (decoder : Decoder) : JsVal := jsByte decoder decoder.pos

/-- `readUint16` from the source:
`arr[pos] + (arr[pos+1] << 8)`, little-endian, no bounds check. -/
def readUint16 (decoder : Decoder) : JsVal × Decoder :=
  (jsAdd (jsByte decoder decoder.pos) (jsShlV (jsByte decoder (decoder.pos + 1)) 8),
   bump decoder 2)

/-- `readUint32` from the source:
`(arr[pos] + (arr[pos+1] << 8) + (arr[pos+2] << 16) + (arr[pos+3] << 24)) >>> 0`,
little-endian, no bounds check. -/
def readUint32 (decoder : Decoder) : Nat × Decoder :=
  (jsShrU0
    (jsAdd
      (jsAdd
        (jsAdd (jsByte decoder decoder.pos) (jsShlV (jsByte decoder (decoder.pos + 1)) 8))
        (jsShlV (jsByte decoder (decoder.pos + 2)) 16))
      (jsShlV (jsByte decoder (decoder.pos + 3)) 24)),
   bump decoder 4)

/-- The loop of `readVarUint`. The source's `while (true)` loop runs at
most 6 times: `len` grows by 7 on every pass and the source throws
`Integer out of range!` as soon as `len` exceeds 35, so with `fuel = 7`
and initial `len = 0` the fuel is never exhausted (the fuel-out value is
therefore irrelevant; it is set to the same error). On every pass the
source executes `decoder.arr[decoder.pos++]`, so the cursor advances even
when the index is out of bounds; an out-of-bounds read yields `undefined`,
for which `r & BITS7` is `0` and `r < BIT8` is false. -/
def readVarUintAux : Nat → Decoder → Int → Nat → Except Err Nat × Decoder
  | 0, d, _, _ => (.error .IntegerOutOfRange, d)
  | fuel + 1, d, num, len =>
    match byteAt d d.pos with
    | some r =>
      let d' := bump d 1
      let num' := jsOr num (jsShl (jsAnd r BITS7) len)
      let len' := len + 7
      if r < BIT8 then (.ok (toUint32 num'), d')
      else if len' > 35 then (.error .IntegerOutOfRange, d')
      else readVarUintAux fuel d' num' len'
    | none =>
      let d' := bump d 1
      let num' := jsOr num (jsShl (jsAnd 0 BITS7) len)
      let len' := len + 7
      if len' > 35 then (.error .IntegerOutOfRange, d')
      else readVarUintAux fuel d' num' len'

/-- `readVarUint` from the source. -/
def readVarUint (decoder : Decoder) : Except Err Nat × Decoder :=
  readVarUintAux 7 decoder 0 0

/-- The loop of `readVarInt`. As in `readVarUintAux`, the loop runs at
most 6 times (`len` starts at 6, grows by 7, and the source throws once
`len` exceeds 41), so `fuel = 7` is never exhausted. -/
def readVarIntAux : Nat → Decoder → Int → Int → Nat → Except Err Int × Decoder
  | 0, d, _, _, _ => (.error .IntegerOutOfRange, d)
  | fuel + 1, d, sign, num, len =>
    match byteAt d d.pos with
    | some r =>
      let d' := bump d 1
      let num' := jsOr num (jsShl (jsAnd r BITS7) len)
      let len' := len + 7
      if r < BIT8 then (.ok (sign * num'), d')
      else if len' > 41 then (.error .IntegerOutOfRange, d')
      else readVarIntAux fuel d' sign num' len'
    | none =>
      let d' := bump d 1
      let num' := jsOr num (jsShl (jsAnd 0 BITS7) len)
      let len' := len + 7
      if len' > 41 then (.error .IntegerOutOfRange, d')
      else readVarIntAux fuel d' sign num' len'

/-- `readVarInt` from the source. The first byte is read with
`decoder.arr[decoder.pos++]`; when it is out of bounds (`undefined`),
`r & BITS6` is `0`, `(r & BIT7) > 0` is false (so `sign = 1`) and
`(r & BIT8) === 0` holds (ToInt32(undefined) = 0), so the function
returns `1 * 0 = 0` without reading further. -/
def readVarInt (decoder : Decoder) : Except Err Int × Decoder :=
  match byteAt decoder decoder.pos with
  | some r =>
    let d' := bump decoder 1
    let num := jsAnd r BITS6
    let sign : Int := if jsAnd r BIT7 > 0 then -1 else 1
    if jsAnd r BIT8 = 0 then (.ok (sign * num), d')
    else readVarIntAux 7 d' sign num 6
  | none =>
    (.ok ((1 : Int) * 0), bump decoder 1)

/-- `peekVarUint` from the source: the position is saved, the read is
performed, and the position is restored afterwards. If the read throws,
the restoring assignment is never executed, so the mutated position
survives alongside the propagating exception. -/
def peekVarUint (decoder : Decoder) : Except Err Nat × Decoder :=
  match readVarUint decoder with
  | (.ok s, d') => (.ok s, { d' with pos := decoder.pos })
  | (.error e, d') => (.error e, d')

/-- `peekVarInt` from the source (same saving/restoring as `peekVarUint`). -/
def peekVarInt (decoder : Decoder) : Except Err Int × Decoder :=
  match readVarInt decoder with
  | (.ok s, d') => (.ok s, { d' with pos := decoder.pos })
  | (.error e, d') => (.error e, d')

/-- `readVarUint8Array` from the source:
`readUint8Array(decoder, readVarUint(decoder))`. -/
def readVarUint8Array (decoder : Decoder) : Except Err (List Nat) × Decoder :=
  match readVarUint decoder with
  | (.ok len, d') => readUint8Array d' len
  | (.error e, d') => (.error e, d')

/-- `string.decodeUtf8`. Modelled from the spec: `string.js` is not among
the provided sources; the spec's string codec stores a string as its raw
UTF-8 bytes, so decoded strings are represented here by their UTF-8 byte
sequences and `decodeUtf8` is the identity on them (faithful for the
well-formed UTF-8 round trips the spec guarantees). -/
def decodeUtf8 (bytes : List Nat) : List Nat := bytes

/-- `readVarString` from the source: `decodeUtf8(readVarUint8Array(decoder))`. -/
def readVarString (decoder : Decoder) : Except Err (List Nat) × Decoder :=
  match readVarUint8Array decoder with
  | (.ok bs, d') => (.ok (decodeUtf8 bs), d')
  | (.error e, d') => (.error e, d')

/-- `peekVarString` from the source (same saving/restoring as `peekVarUint`). -/
def peekVarString (decoder : Decoder) : Except Err (List Nat) × Decoder :=
  match readVarString decoder with
  | (.ok s, d') => (.ok s, { d' with pos := decoder.pos })
  | (.error e, d') => (.error e, d')

/-- `readFromDataView` from the source. The `DataView` constructor is
modelled from the spec: constructing a view past the end of the buffer is
a fatal `BufferUnderrun`; on success the next `len` bytes are returned
and the cursor advances by `len`. -/
def readFromDataView (decoder : Decoder) (len : Nat) : Except Err (List Nat) × Decoder :=
  if decoder.pos + len ≤ decoder.arr.length then
    (.ok ((decoder.arr.drop decoder.pos).take len), bump decoder len)
  else
    (.error .BufferUnderrun, decoder)

/-- Big-endian reassembly of a byte list (how `DataView.getFloat32` /
`getFloat64` / `getBigInt64` consume their bytes, most significant
first). -/
def beNat (bytes : List Nat) : Nat := bytes.foldl (fun acc b => acc * 256 + b) 0

/-- `readFloat32` from the source. Per the spec the float codec
reinterprets exactly 4 raw bytes as the IEEE bit pattern; the decoded
float is represented here by that 32-bit pattern. -/
def readFloat32 (decoder : Decoder) : Except Err Nat × Decoder :=
  match readFromDataView decoder 4 with
  | (.ok bs, d') => (.ok (beNat bs), d')
  | (.error e, d') => (.error e, d')

/-- `readFloat64` from the source (8-byte IEEE bit pattern; see
`readFloat32`). -/
def readFloat64 (decoder : Decoder) : Except Err Nat × Decoder :=
  match readFromDataView decoder 8 with
  | (.ok bs, d') => (.ok (beNat bs), d')
  | (.error e, d') => (.error e, d')

/-- Two's-complement reading of a 64-bit big-endian pattern. -/
def toSigned64 (n : Nat) : Int :=
  if n < 9223372036854775808 then (n : Int) else (n : Int) - 18446744073709551616

/-- `readBigInt64` from the source (`DataView.getBigInt64(0)`: 8 bytes,
big-endian, two's complement). -/
def readBigInt64 (decoder : Decoder) : Except Err Int × Decoder :=
  match readFromDataView decoder 8 with
  | (.ok bs, d') => (.ok (toSigned64 (beNat bs)), d')
  | (.error e, d') => (.error e, d')

/-- The little-endian base-128 value of a list of payload chunks, as the
spec describes it: each byte contributes its low 7 bits, shifted by an
accumulating 7-bit offset. -/
def varUintChunks : List Nat → Nat
  | [] => 0
  | b :: t => b % 128 + 128 * varUintChunks t

/-- The value the spec assigns to an unsigned varint encoding: the
base-128 little-endian chunk value, taken as a 32-bit unsigned integer
(wrapping/truncating to 32 bits). -/
def varUintSpec (bytes : List Nat) : Nat := varUintChunks bytes % 4294967296

/-- The value the spec assigns to a signed varint encoding (§4.2, second
definition for the refinement comparison): the first byte holds the sign
in bit `0x40` and the low 6 bits as the least-significant payload bits;
subsequent bytes contribute 7 payload bits each, the running bit-offset
starting at 6; the sign is applied by multiplying the assembled magnitude
by -1 when the sign bit was set. -/
def varIntSpec : List Nat → Int
  | [] => 0
  | b :: t => (if b &&& 64 ≠ 0 then (-1 : Int) else 1) * ((b &&& 63 : Nat) + 64 * (varUintChunks t : Int))

/-- The tagged union decoded by `readAny` (the Any-value of the data
model). Strings are represented by their UTF-8 byte sequences and floats
by their IEEE bit patterns, matching `readVarString` / `readFloat32` /
`readFloat64` above. -/
inductive Any where
  | undefined
  | null
  | integer (v : Int)
  | float32 (bits : Nat)
  | float64 (bits : Nat)
  | int64 (v : Int)
  | boolean (b : Bool)
  | string (utf8 : List Nat)
  | record (entries : List (List Nat × Any))
  | array (elems : List Any)
  | bytes (data : List Nat)

/-- Map a function over the payload of a reader result. -/
def mapRes {α β : Type} (f : α → β) : Except Err α × Decoder → Except Err β × Decoder
  | (.ok v, d) => (.ok (f v), d)
  | (.error e, d) => (.error e, d)

mutual

/-- `readAny` from the source, with explicit fuel (the mutual recursion
through the record/array cases is not structural; theorems below show the
fuel chosen in `readAny` is always sufficient, so the `none` fuel-out
value never arises there). Dispatch follows the source exactly:
`readAnyLookupTable[127 - readUint8(decoder)](decoder)`. The tag byte is
read with no bounds check; a tag outside 116..127 — including every tag
byte ≤ 115, every tag byte ≥ 128, and the `undefined` produced by a read
past the end — selects a missing table entry, which is the fatal
`UnknownTag` condition. -/
def readAnyF : Nat → Decoder → Option (Except Err Any × Decoder)
  | 0, _ => none
  | fuel + 1, d =>
    match byteAt d d.pos with
    | none => some (.error .UnknownTag, bump d 1)
    | some t =>
      let d1 := bump d 1
      if t = 127 then some (.ok .undefined, d1)
      else if t = 126 then some (.ok .null, d1)
      else if t = 125 then some (mapRes Any.integer (readVarInt d1))
      else if t = 124 then some (mapRes Any.float32 (readFloat32 d1))
      else if t = 123 then some (mapRes Any.float64 (readFloat64 d1))
      else if t = 122 then some (mapRes Any.int64 (readBigInt64 d1))
      else if t = 121 then some (.ok (.boolean false), d1)
      else if t = 120 then some (.ok (.boolean true), d1)
      else if t = 119 then some (mapRes Any.string (readVarString d1))
      else if t = 118 then
        match readVarUint d1 with
        | (.ok len, d2) =>
          match readPairsF fuel len d2 with
          | none => none
          | some (.ok ps, d3) => some (.ok (.record ps), d3)
          | some (.error e, d3) => some (.error e, d3)
        | (.error e, d2) => some (.error e, d2)
      else if t = 117 then
        match readVarUint d1 with
        | (.ok len, d2) =>
          match readElemsF fuel len d2 with
          | none => none
          | some (.ok vs, d3) => some (.ok (.array vs), d3)
          | some (.error e, d3) => some (.error e, d3)
        | (.error e, d2) => some (.error e, d2)
      else if t = 116 then some (mapRes Any.bytes (readVarUint8Array d1))
      else some (.error .UnknownTag, d1)

/-- The `for` loop of the source's object case (CASE 118): read `len`
(key, value) pairs in order, the key with `readVarString` and the value
recursively with `readAny`. -/
def readPairsF : Nat → Nat → Decoder → Option (Except Err (List (List Nat × Any)) × Decoder)
  | 0, _, _ => none
  | _ + 1, 0, d => some (.ok [], d)
  | fuel + 1, n + 1, d =>
    match readVarString d with
    | (.error e, d1) => some (.error e, d1)
    | (.ok k, d1) =>
      match readAnyF fuel d1 with
      | none => none
      | some (.error e, d2) => some (.error e, d2)
      | some (.ok v, d2) =>
        match readPairsF fuel n d2 with
        | none => none
        | some (.error e, d3) => some (.error e, d3)
        | some (.ok ps, d3) => some (.ok ((k, v) :: ps), d3)

/-- The `for` loop of the source's array case (CASE 117): read `len`
values in order, each recursively with `readAny`. -/
def readElemsF : Nat → Nat → Decoder → Option (Except Err (List Any) × Decoder)
  | 0, _, _ => none
  | _ + 1, 0, d => some (.ok [], d)
  | fuel + 1, n + 1, d =>
    match readAnyF fuel d with
    | none => none
    | some (.error e, d1) => some (.error e, d1)
    | some (.ok v, d1) =>
      match readElemsF fuel n d1 with
      | none => none
      | some (.error e, d2) => some (.error e, d2)
      | some (.ok vs, d2) => some (.ok (v :: vs), d2)

end

/-- `readAny` from the source. The fuel `2 * length + 3` always suffices
(every recursive step first consumes at least one byte of the array, see
the sufficiency theorem below), so the `Option.getD` default is never
used. -/
def readAny (decoder : Decoder) : Except Err Any × Decoder :=
  (readAnyF (2 * decoder.arr.length + 3) decoder).getD (.error .UnknownTag, decoder)

/-- `ReadsPairs n d ps d'` holds when, starting from `d`, reading `n`
(key, value) pairs in order — the key with `readVarString`, the value
with `readAny` — succeeds, produces the association list `ps` and leaves
the decoder at `d'`. -/
inductive ReadsPairs : Nat → Decoder → List (List Nat × Any) → Decoder → Prop where
  | nil (d : Decoder) : ReadsPairs 0 d [] d
  | cons {d d1 d2 d3 : Decoder} {k : List Nat} {v : Any} {n : Nat} {ps : List (List Nat × Any)} :
      readVarString d = (.ok k, d1) →
      readAny d1 = (.ok v, d2) →
      ReadsPairs n d2 ps d3 →
      ReadsPairs (n + 1) d ((k, v) :: ps) d3

/-- `ReadsElems n d vs d'` holds when, starting from `d`, reading `n`
values in order with `readAny` succeeds, produces `vs` and leaves the
decoder at `d'`. -/
inductive ReadsElems : Nat → Decoder → List Any → Decoder → Prop where
  | nil (d : Decoder) : ReadsElems 0 d [] d
  | cons {d d1 d2 : Decoder} {v : Any} {n : Nat} {vs : List Any} :
      readAny d = (.ok v, d1) →
      ReadsElems n d1 vs d2 →
      ReadsElems (n + 1) d (v :: vs) d2

/-- The decoder operations the spec's cursor-invariant claim quantifies
over: reads, skips, peeks and clones. -/
inductive Op where
  | skip8Op
  | readUint8Op
  | readUint16Op
  | readUint32Op
  | readVarUintOp
  | readVarIntOp
  | readVarStringOp
  | readVarUint8ArrayOp
  | peekVarUintOp
  | peekVarStringOp
  | cloneOp
deriving DecidableEq, Repr

/-- The decoder state after performing one operation. -/
def applyOp : Op → Decoder → Decoder
  | .skip8Op, d => (skip8 d).2
  | .readUint8Op, d => (readUint8 d).2
  | .readUint16Op, d => (readUint16 d).2
  | .readUint32Op, d => (readUint32 d).2
  | .readVarUintOp, d => (readVarUint d).2
  | .readVarIntOp, d => (readVarInt d).2
  | .readVarStringOp, d => (readVarString d).2
  | .readVarUint8ArrayOp, d => (readVarUint8Array d).2
  | .peekVarUintOp, d => (peekVarUint d).2
  | .peekVarStringOp, d => (peekVarString d).2
  | .cloneOp, d => cloneDefault d

/-- The in-bounds guard of one operation: fixed-width reads and skips
must have enough bytes left, variable-length reads must succeed (and a
signed varint read must see at least its first byte). -/
def opInBounds : Op → Decoder → Bool
  | .skip8Op, d => d.pos + 1 ≤ d.arr.length
  | .readUint8Op, d => d.pos + 1 ≤ d.arr.length
  | .readUint16Op, d => d.pos + 2 ≤ d.arr.length
  | .readUint32Op, d => d.pos + 4 ≤ d.arr.length
  | .readVarUintOp, d => (readVarUint d).1.isOk
  | .readVarIntOp, d => (readVarInt d).1.isOk && decide (d.pos < d.arr.length)
  | .readVarStringOp, d => (readVarString d).1.isOk
  | .readVarUint8ArrayOp, d => (readVarUint8Array d).1.isOk
  | .peekVarUintOp, d => (readVarUint d).1.isOk
  | .peekVarStringOp, d => (readVarString d).1.isOk
  | .cloneOp, _ => true

/-- The decoder state after a sequence of operations. -/
def runOps : List Op → Decoder → Decoder
  | [], d => d
  | op :: ops, d => runOps ops (applyOp op d)

/-- All operations of the sequence are performed within bounds. -/
def opsInBounds : List Op → Decoder → Bool
  | [], _ => true
  | op :: ops, d => opInBounds op d && opsInBounds ops (applyOp op d)

/-! ### Arithmetic helper lemmas -/

theorem toUint32_natCast (n : Nat) : toUint32 (n : Int) = n % 4294967296 := by
  unfold toUint32
  omega

theorem toUint32_ofUint32 {m : Nat} (h : m < 4294967296) : toUint32 (ofUint32 m) = m := by
  unfold toUint32 ofUint32
  split <;> omega

theorem ofUint32_small {m : Nat} (h : m < 2147483648) : ofUint32 m = (m : Int) := by
  unfold ofUint32
  rw [if_pos h]

/-- Disjoint bit ranges: `or` with a shifted value is addition. -/
theorem lor_two_pow_disjoint (k a b : Nat) (h : a < 2 ^ k) :
    a ||| 2 ^ k * b = 2 ^ k * b + a := by
  refine Nat.eq_of_testBit_eq fun j => ?_
  rw [Nat.testBit_lor, Nat.testBit_mul_pow_two_add _ h, Nat.testBit_mul_pow_two]
  by_cases hj : j < k
  · have : ¬ (j ≥ k) := by omega
    simp [hj, this]
  · have ha : a.testBit j = false :=
      Nat.testBit_eq_false_of_lt
        (lt_of_lt_of_le h (Nat.pow_le_pow_right (by norm_num) (Nat.le_of_not_lt hj)))
    have : j ≥ k := Nat.le_of_not_lt hj
    simp [hj, ha, this]

theorem jsAnd_bits7 (b : Nat) : jsAnd (b : Int) ((BITS7 : Nat) : Int) = ((b % 128 : Nat) : Int) := by
  unfold jsAnd BITS7
  rw [toUint32_natCast, toUint32_natCast]
  have h127 : (127 : Nat) % 4294967296 = 127 := by norm_num
  rw [h127]
  have h2 : b % 4294967296 &&& 127 = b % 128 := by
    have := Nat.and_pow_two_sub_one_eq_mod (b % 4294967296) 7
    norm_num at this
    exact this
  rw [h2, ofUint32_small (by omega)]

theorem jsShl_natCast (c k : Nat) (hc : c < 4294967296) :
    jsShl (c : Int) k = ofUint32 (c * 2 ^ (k % 32) % 4294967296) := by
  unfold jsShl
  rw [toUint32_natCast, Nat.mod_eq_of_lt hc]

theorem jsOr_natCast (a m : Nat) (ha : a < 4294967296) (hm : m < 4294967296) :
    jsOr (a : Int) (ofUint32 m) = ofUint32 (a ||| m) := by
  unfold jsOr
  rw [toUint32_natCast, Nat.mod_eq_of_lt ha, toUint32_ofUint32 hm]

theorem varUintChunks_lt (bs : List Nat) : varUintChunks bs < 2 ^ (7 * bs.length) := by
  induction bs with
  | nil => simp [varUintChunks]
  | cons b t ih =>
    simp only [varUintChunks, List.length_cons]
    have hb : b % 128 < 128 := Nat.mod_lt _ (by norm_num)
    have hp : 2 ^ (7 * (t.length + 1)) = 2 ^ (7 * t.length) * 128 := by
      rw [Nat.mul_add, pow_add]
      norm_num
    omega

theorem getElem?_append_cons (pre : List Nat) (x : Nat) (L : List Nat) :
    (pre ++ x :: L)[pre.length]? = some x := by
  rw [List.getElem?_append_right (Nat.le_refl _)]
  simp

/-! ### The unsigned varint loop -/

theorem readVarUintAux_ok (body : List Nat) :
    ∀ (pre rest : List Nat) (t i n fuel : Nat),
      (∀ b ∈ body, 128 ≤ b ∧ b < 256) → t < 128 →
      i + body.length ≤ 4 → body.length + 1 ≤ fuel → n < 2 ^ (7 * i) →
      readVarUintAux fuel ⟨pre ++ (body ++ t :: rest), pre.length⟩ (n : Int) (7 * i) =
        (.ok ((n + 2 ^ (7 * i) * varUintChunks (body ++ [t])) % 4294967296),
         ⟨pre ++ (body ++ t :: rest), pre.length + (body.length + 1)⟩) := by
  induction body with
  | nil =>
    intro pre rest t i n fuel _ ht hi hfuel hn
    obtain ⟨f, rfl⟩ : ∃ f, fuel = f + 1 := ⟨fuel - 1, by omega⟩
    have h7i : 7 * i ≤ 28 := by omega
    have hA : (2 : ℕ) ^ (7 * i) ≤ 2 ^ 28 := Nat.pow_le_pow_right (by norm_num) h7i
    have hn32 : n < 4294967296 := lt_of_lt_of_le hn (le_trans hA (by norm_num))
    have hBpos : 0 < 2 ^ (32 - 7 * i) := pow_pos (by norm_num) _
    have hsplit : (4294967296 : ℕ) = 2 ^ (7 * i) * 2 ^ (32 - 7 * i) := by
      have he : 7 * i + (32 - 7 * i) = 32 := by omega
      rw [← pow_add, he]
      norm_num
    simp only [List.nil_append, readVarUintAux, byteAt, getElem?_append_cons, BIT8,
      if_pos ht, bump]
    rw [jsAnd_bits7, Nat.mod_eq_of_lt ht, jsShl_natCast t _ (by omega),
      Nat.mod_eq_of_lt (show 7 * i < 32 by omega),
      jsOr_natCast n _ hn32 (Nat.mod_lt _ (by norm_num))]
    have hm : t * 2 ^ (7 * i) % 4294967296 = 2 ^ (7 * i) * (t % 2 ^ (32 - 7 * i)) := by
      rw [Nat.mul_comm t, hsplit, Nat.mul_mod_mul_left]
    rw [hm, lor_two_pow_disjoint _ _ _ hn]
    have h2 : 2 ^ (7 * i) * (t % 2 ^ (32 - 7 * i)) ≤ 2 ^ (7 * i) * (2 ^ (32 - 7 * i) - 1) :=
      Nat.mul_le_mul_left _ (by omega)
    have h4 : 2 ^ (7 * i) * (2 ^ (32 - 7 * i) - 1) + 2 ^ (7 * i) = 4294967296 := by
      have h5 : 2 ^ (7 * i) * (2 ^ (32 - 7 * i) - 1) + 2 ^ (7 * i) =
          2 ^ (7 * i) * (2 ^ (32 - 7 * i) - 1 + 1) := by ring
      rw [h5, Nat.sub_add_cancel hBpos, ← hsplit]
    have hlt : 2 ^ (7 * i) * (t % 2 ^ (32 - 7 * i)) + n < 4294967296 := by omega
    rw [toUint32_ofUint32 hlt]
    have h6 : 2 ^ (7 * i) * t % 4294967296 = 2 ^ (7 * i) * (t % 2 ^ (32 - 7 * i)) := by
      rw [hsplit, Nat.mul_mod_mul_left]
    simp only [varUintChunks, Nat.mod_eq_of_lt ht, Nat.mul_zero, Nat.add_zero,
      List.nil_append, List.length_nil]
    have hval : 2 ^ (7 * i) * (t % 2 ^ (32 - 7 * i)) + n = (n + 2 ^ (7 * i) * t) % 4294967296 := by
      omega
    rw [hval]
  | cons b body' ih =>
    intro pre rest t i n fuel hbody ht hi hfuel hn
    obtain ⟨f, rfl⟩ : ∃ f, fuel = f + 1 := ⟨fuel - 1, by omega⟩
    obtain ⟨hb1, hb2⟩ := hbody b (List.mem_cons_self _ _)
    simp only [List.length_cons] at hi hfuel
    have hi3 : i ≤ 3 := by omega
    have hb128 : b % 128 < 128 := Nat.mod_lt _ (by norm_num)
    have hn32 : n < 4294967296 := by
      have hA : (2 : ℕ) ^ (7 * i) ≤ 2 ^ 21 := Nat.pow_le_pow_right (by norm_num) (by omega)
      omega
    have hcons : pre ++ ((b :: body') ++ t :: rest) = pre ++ b :: (body' ++ t :: rest) := by
      simp
    rw [hcons]
    simp only [readVarUintAux, byteAt, getElem?_append_cons, BIT8, bump]
    rw [if_neg (by omega)]
    rw [if_neg (show ¬ 7 * i + 7 > 35 by omega)]
    rw [jsAnd_bits7, jsShl_natCast (b % 128) _ (by omega),
      Nat.mod_eq_of_lt (show 7 * i < 32 by omega),
      jsOr_natCast n _ hn32 (Nat.mod_lt _ (by norm_num))]
    have hsmall : b % 128 * 2 ^ (7 * i) < 4294967296 := by
      have hA : (2 : ℕ) ^ (7 * i) ≤ 2 ^ 21 := Nat.pow_le_pow_right (by norm_num) (by omega)
      calc b % 128 * 2 ^ (7 * i) ≤ 127 * 2 ^ 21 := Nat.mul_le_mul (by omega) hA
        _ < 4294967296 := by norm_num
    rw [Nat.mod_eq_of_lt hsmall, Nat.mul_comm (b % 128), lor_two_pow_disjoint _ _ _ hn]
    have hstep : (2 : ℕ) ^ (7 * (i + 1)) = 2 ^ (7 * i) * 128 := by
      rw [Nat.mul_add, pow_add]
      norm_num
    have hsum : 2 ^ (7 * i) * (b % 128) + n < 2 ^ (7 * (i + 1)) := by
      have h1 : 2 ^ (7 * i) * (b % 128) + 2 ^ (7 * i) = 2 ^ (7 * i) * (b % 128 + 1) := by ring
      have h3 : 2 ^ (7 * i) * (b % 128 + 1) ≤ 2 ^ (7 * i) * 128 :=
        Nat.mul_le_mul_left _ (by omega)
      rw [hstep]
      omega
    have hsum31 : 2 ^ (7 * i) * (b % 128) + n < 2147483648 := by
      have hA : (2 : ℕ) ^ (7 * (i + 1)) ≤ 2 ^ 28 := Nat.pow_le_pow_right (by norm_num) (by omega)
      omega
    rw [ofUint32_small hsum31]
    have h7eq : 7 * i + 7 = 7 * (i + 1) := by ring
    rw [h7eq]
    have IH := ih (pre ++ [b]) rest t (i + 1) (2 ^ (7 * i) * (b % 128) + n) f
      (fun x hx => hbody x (List.mem_cons_of_mem _ hx)) ht
      (by omega) (by omega) hsum
    simp only [List.append_assoc, List.singleton_append, List.length_append,
      List.length_cons, List.length_nil, Nat.add_zero] at IH
    rw [IH]
    have hval : 2 ^ (7 * i) * (b % 128) + n + 2 ^ (7 * (i + 1)) * varUintChunks (body' ++ [t])
        = n + 2 ^ (7 * i) * (b % 128 + 128 * varUintChunks (body' ++ [t])) := by
      rw [hstep, Nat.mul_add, ← Nat.mul_assoc]
      omega
    simp only [List.cons_append, varUintChunks, List.length_cons]
    rw [hval]
    congr 2
    omega

/-- C1: For every byte sequence encoding a variable-length unsigned
integer (per the wire-format table a varUint encoding is at most 5 bytes:
up to 4 bytes with the continuation bit `0x80` set followed by one byte
with it clear), `readVarUint` decodes it base-128 little-endian — each
byte contributes its low 7 bits at an accumulating 7-bit offset, the
first byte with a clear continuation bit stops the loop — and returns the
accumulated value taken as a 32-bit unsigned integer (`varUintSpec`,
which wraps to 32 bits), advancing the cursor by exactly the number of
bytes consumed. -/
theorem readVarUint_decodes_base128 (pre rest body : List Nat) (t : Nat)
    (hbody : ∀ b ∈ body, 128 ≤ b ∧ b < 256) (ht : t < 128) (hlen : body.length ≤ 4) :
    readVarUint ⟨pre ++ (body ++ t :: rest), pre.length⟩ =
      (.ok (varUintSpec (body ++ [t])),
       ⟨pre ++ (body ++ t :: rest), pre.length + (body.length + 1)⟩) := by
  unfold readVarUint varUintSpec
  have h := readVarUintAux_ok body pre rest t 0 0 7 hbody ht (by omega) (by omega)
    (by norm_num)
  simpa using h

/-- Witness for `readVarUint_decodes_base128`: the 5-byte encoding
`[255, 255, 255, 255, 15]` decodes to `2^32 - 1` with the cursor on 5. -/
theorem readVarUint_decodes_base128_witness :
    readVarUint (createDecoder [255, 255, 255, 255, 15]) =
      (.ok 4294967295, ⟨[255, 255, 255, 255, 15], 5⟩) := by
  have h := readVarUint_decodes_base128 [] [] [255, 255, 255, 255] 15
    (by decide) (by norm_num) (by norm_num)
  simpa [createDecoder, varUintSpec, varUintChunks] using h

/-- One continuation pass of the unsigned varint loop. -/
theorem readVarUintAux_cont_step (fuel : Nat) (d : Decoder) (num : Int) (len b : Nat)
    (hb : byteAt d d.pos = some b) (h128 : 128 ≤ b) (hlen : len + 7 ≤ 35) :
    readVarUintAux (fuel + 1) d num len =
      readVarUintAux fuel (bump d 1) (jsOr num (jsShl (jsAnd (b : Int) ((BITS7 : Nat) : Int)) len)) (len + 7) := by
  simp only [readVarUintAux, hb, BIT8]
  rw [if_neg (by omega), if_neg (by omega)]

/-- The throwing pass of the unsigned varint loop. -/
theorem readVarUintAux_cont_throw (fuel : Nat) (d : Decoder) (num : Int) (len b : Nat)
    (hb : byteAt d d.pos = some b) (h128 : 128 ≤ b) (hlen : len + 7 > 35) :
    readVarUintAux (fuel + 1) d num len = (.error .IntegerOutOfRange, bump d 1) := by
  simp only [readVarUintAux, hb, BIT8]
  rw [if_neg (by omega), if_pos (by omega)]

/-- C4: `readVarUint` fails with `IntegerOutOfRange` when more than 5
continuation bytes are consumed: for every decoder state whose next 6
bytes all have the continuation bit set, decoding raises
`IntegerOutOfRange` (after consuming exactly those 6 bytes) rather than
looping or returning a value. -/
theorem readVarUint_six_continuations_out_of_range (d : Decoder)
    (h : ∀ i, i < 6 → ∃ b, byteAt d (d.pos + i) = some b ∧ 128 ≤ b ∧ b < 256) :
    readVarUint d = (.error .IntegerOutOfRange, bump d 6) := by
  obtain ⟨b0, hb0, h0, _⟩ := h 0 (by norm_num)
  obtain ⟨b1, hb1, h1, _⟩ := h 1 (by norm_num)
  obtain ⟨b2, hb2, h2, _⟩ := h 2 (by norm_num)
  obtain ⟨b3, hb3, h3, _⟩ := h 3 (by norm_num)
  obtain ⟨b4, hb4, h4, _⟩ := h 4 (by norm_num)
  obtain ⟨b5, hb5, h5, _⟩ := h 5 (by norm_num)
  rw [Nat.add_zero] at hb0
  have e1 : byteAt (bump d 1) (bump d 1).pos = some b1 := by
    simpa [bump, byteAt] using hb1
  have e2 : byteAt (bump (bump d 1) 1) (bump (bump d 1) 1).pos = some b2 := by
    simpa [bump, byteAt, Nat.add_assoc] using hb2
  have e3 : byteAt (bump (bump (bump d 1) 1) 1) (bump (bump (bump d 1) 1) 1).pos = some b3 := by
    simpa [bump, byteAt, Nat.add_assoc] using hb3
  have e4 : byteAt (bump (bump (bump (bump d 1) 1) 1) 1)
      (bump (bump (bump (bump d 1) 1) 1) 1).pos = some b4 := by
    simpa [bump, byteAt, Nat.add_assoc] using hb4
  have e5 : byteAt (bump (bump (bump (bump (bump d 1) 1) 1) 1) 1)
      (bump (bump (bump (bump (bump d 1) 1) 1) 1) 1).pos = some b5 := by
    simpa [bump, byteAt, Nat.add_assoc] using hb5
  unfold readVarUint
  rw [readVarUintAux_cont_step 6 d _ 0 b0 hb0 h0 (by norm_num),
    readVarUintAux_cont_step 5 _ _ 7 b1 e1 h1 (by norm_num),
    readVarUintAux_cont_step 4 _ _ 14 b2 e2 h2 (by norm_num),
    readVarUintAux_cont_step 3 _ _ 21 b3 e3 h3 (by norm_num),
    readVarUintAux_cont_step 2 _ _ 28 b4 e4 h4 (by norm_num),
    readVarUintAux_cont_throw 1 _ _ 35 b5 e5 h5 (by norm_num)]
  simp only [bump]

/-- Witness for `readVarUint_six_continuations_out_of_range`: six `0x80`
bytes raise `IntegerOutOfRange` with the cursor on 6. -/
theorem readVarUint_six_continuations_out_of_range_witness :
    readVarUint (createDecoder [128, 128, 128, 128, 128, 128]) =
      (.error .IntegerOutOfRange, bump (createDecoder [128, 128, 128, 128, 128, 128]) 6) := by
  refine readVarUint_six_continuations_out_of_range _ ?_
  intro i hi
  interval_cases i <;> exact ⟨128, rfl, by norm_num, by norm_num⟩

/-! ### The signed varint loop -/

theorem jsAnd_natCast (a b : Nat) (ha : a < 4294967296) (hb : b < 2147483648) :
    jsAnd (a : Int) (b : Int) = ((a &&& b : Nat) : Int) := by
  unfold jsAnd
  rw [toUint32_natCast, toUint32_natCast, Nat.mod_eq_of_lt ha, Nat.mod_eq_of_lt (by omega)]
  exact ofUint32_small (lt_of_le_of_lt (Nat.and_le_right) hb)

theorem jsAnd_bits6 (b : Nat) (hb : b < 4294967296) :
    jsAnd (b : Int) ((BITS6 : Nat) : Int) = ((b % 64 : Nat) : Int) := by
  have h : jsAnd (b : Int) ((BITS6 : Nat) : Int) = ((b &&& 63 : Nat) : Int) := by
    unfold BITS6
    exact jsAnd_natCast b 63 hb (by norm_num)
  rw [h]
  congr 1
  have := Nat.and_pow_two_sub_one_eq_mod b 6
  norm_num at this
  exact this

theorem readVarIntAux_ok (body : List Nat) :
    ∀ (pre rest : List Nat) (t i n fuel : Nat) (sign : Int),
      (∀ b ∈ body, 128 ≤ b ∧ b < 256) → t < 128 →
      i + body.length ≤ 4 → body.length + 1 ≤ fuel →
      n < 2 ^ (6 + 7 * i) →
      n + 2 ^ (6 + 7 * i) * varUintChunks (body ++ [t]) < 2147483648 →
      readVarIntAux fuel ⟨pre ++ (body ++ t :: rest), pre.length⟩ sign (n : Int) (6 + 7 * i) =
        (.ok (sign * ((n + 2 ^ (6 + 7 * i) * varUintChunks (body ++ [t]) : Nat) : Int)),
         ⟨pre ++ (body ++ t :: rest), pre.length + (body.length + 1)⟩) := by
  induction body with
  | nil =>
    intro pre rest t i n fuel sign _ ht hi hfuel hn htotal
    obtain ⟨f, rfl⟩ : ∃ f, fuel = f + 1 := ⟨fuel - 1, by omega⟩
    simp only [List.nil_append, List.length_nil, varUintChunks, List.append_eq,
      Nat.mod_eq_of_lt ht, Nat.mul_zero, Nat.add_zero, Nat.zero_add] at htotal ⊢
    have hn32 : n < 4294967296 := by omega
    simp only [readVarIntAux, byteAt, getElem?_append_cons, BIT8, if_pos ht, bump]
    rw [jsAnd_bits7, Nat.mod_eq_of_lt ht]
    by_cases hi4 : i ≤ 3
    · have hlen32 : 6 + 7 * i < 32 := by omega
      have hm : t * 2 ^ (6 + 7 * i) < 4294967296 := by
        rw [Nat.mul_comm]
        omega
      rw [jsShl_natCast t _ (by omega), Nat.mod_eq_of_lt hlen32,
        jsOr_natCast n _ hn32 (Nat.mod_lt _ (by norm_num))]
      rw [Nat.mod_eq_of_lt hm, Nat.mul_comm t,
        lor_two_pow_disjoint _ _ _ hn, ofUint32_small (by omega)]
      have hcomm : 2 ^ (6 + 7 * i) * t + n = n + 2 ^ (6 + 7 * i) * t := by omega
      rw [hcomm]
    · have hi4' : i = 4 := by omega
      subst hi4'
      have ht0 : t = 0 := by
        by_contra hne
        have h1 : (1 : ℕ) ≤ t := by omega
        have h2 : 2 ^ (6 + 7 * 4) * 1 ≤ 2 ^ (6 + 7 * 4) * t := Nat.mul_le_mul_left _ h1
        norm_num at h2
        omega
      subst ht0
      have hshl : jsShl ((0 : Nat) : Int) (6 + 7 * 4) = ofUint32 0 := by
        rw [jsShl_natCast 0 _ (by norm_num)]
        simp
      rw [hshl, jsOr_natCast n 0 hn32 (by norm_num)]
      have hl : n ||| 0 = n := by simp
      rw [hl, ofUint32_small (by omega)]
      norm_num
  | cons b body' ih =>
    intro pre rest t i n fuel sign hbody ht hi hfuel hn htotal
    obtain ⟨f, rfl⟩ : ∃ f, fuel = f + 1 := ⟨fuel - 1, by omega⟩
    obtain ⟨hb1, hb2⟩ := hbody b (List.mem_cons_self _ _)
    simp only [List.length_cons] at hi hfuel
    have hi3 : i ≤ 3 := by omega
    have hb128 : b % 128 < 128 := Nat.mod_lt _ (by norm_num)
    simp only [List.cons_append, varUintChunks, List.append_eq] at htotal
    have hchunk : 2 ^ (6 + 7 * i) * (b % 128) + n < 2147483648 := by
      have h1 : 2 ^ (6 + 7 * i) * (b % 128) ≤
          2 ^ (6 + 7 * i) * (b % 128 + 128 * varUintChunks (body' ++ [t])) :=
        Nat.mul_le_mul_left _ (by omega)
      omega
    have hn32 : n < 4294967296 := by omega
    have hcons : pre ++ ((b :: body') ++ t :: rest) = pre ++ b :: (body' ++ t :: rest) := by
      simp
    rw [hcons]
    simp only [readVarIntAux, byteAt, getElem?_append_cons, BIT8, bump]
    rw [if_neg (by omega)]
    rw [if_neg (show ¬ 6 + 7 * i + 7 > 41 by omega)]
    have hlen32 : 6 + 7 * i < 32 := by omega
    rw [jsAnd_bits7, jsShl_natCast (b % 128) _ (by omega),
      Nat.mod_eq_of_lt hlen32,
      jsOr_natCast n _ hn32 (Nat.mod_lt _ (by norm_num))]
    have hm2 : b % 128 * 2 ^ (6 + 7 * i) < 4294967296 := by
      rw [Nat.mul_comm]
      omega
    rw [Nat.mod_eq_of_lt hm2, Nat.mul_comm (b % 128),
      lor_two_pow_disjoint _ _ _ hn, ofUint32_small (by omega)]
    have hstep : (2 : ℕ) ^ (6 + 7 * (i + 1)) = 2 ^ (6 + 7 * i) * 128 := by
      have he : 6 + 7 * (i + 1) = (6 + 7 * i) + 7 := by ring
      rw [he, pow_add]
      norm_num
    have hsum : 2 ^ (6 + 7 * i) * (b % 128) + n < 2 ^ (6 + 7 * (i + 1)) := by
      have h1 : 2 ^ (6 + 7 * i) * (b % 128 + 1) ≤ 2 ^ (6 + 7 * i) * 128 :=
        Nat.mul_le_mul_left _ (by omega)
      have h2 : 2 ^ (6 + 7 * i) * (b % 128 + 1) = 2 ^ (6 + 7 * i) * (b % 128) + 2 ^ (6 + 7 * i) := by
        ring
      rw [hstep]
      omega
    have hval : 2 ^ (6 + 7 * i) * (b % 128) + n + 2 ^ (6 + 7 * (i + 1)) * varUintChunks (body' ++ [t])
        = n + 2 ^ (6 + 7 * i) * (b % 128 + 128 * varUintChunks (body' ++ [t])) := by
      rw [hstep, Nat.mul_add, ← Nat.mul_assoc]
      omega
    have htotal' : 2 ^ (6 + 7 * i) * (b % 128) + n +
        2 ^ (6 + 7 * (i + 1)) * varUintChunks (body' ++ [t]) < 2147483648 := by
      rw [hval]
      omega
    have h7eq : 6 + 7 * i + 7 = 6 + 7 * (i + 1) := by ring
    rw [h7eq]
    have IH := ih (pre ++ [b]) rest t (i + 1) (2 ^ (6 + 7 * i) * (b % 128) + n) f sign
      (fun x hx => hbody x (List.mem_cons_of_mem _ hx)) ht
      (by omega) (by omega) hsum htotal'
    simp only [List.append_assoc, List.singleton_append, List.length_append,
      List.length_cons, List.length_nil, Nat.add_zero] at IH
    rw [IH]
    simp only [List.cons_append, varUintChunks, List.length_cons]
    rw [hval]
    congr 2
    omega

set_option maxRecDepth 4096 in
theorem and128_eq_zero_iff (x : Nat) (hx : x < 256) : x &&& 128 = 0 ↔ x < 128 :=
  (by decide : ∀ y, y < 256 → (y &&& 128 = 0 ↔ y < 128)) x hx

/-- The first byte of `readVarInt`: sign from bit `0x40`, six payload
bits, continuation from bit `0x80`. -/
theorem readVarInt_first (pre tail : List Nat) (f : Nat) (hf : f < 256) :
    readVarInt ⟨pre ++ f :: tail, pre.length⟩ =
      (if f < 128 then
        ((.ok ((if f &&& 64 ≠ 0 then (-1 : Int) else 1) * ((f &&& 63 : Nat) : Int))),
         ⟨pre ++ f :: tail, pre.length + 1⟩)
      else readVarIntAux 7 ⟨pre ++ f :: tail, pre.length + 1⟩
        (if f &&& 64 ≠ 0 then (-1 : Int) else 1) ((f &&& 63 : Nat) : Int) 6) := by
  unfold readVarInt
  have hc : (((f &&& 128 : Nat) : Int) = 0) ↔ f < 128 := by
    rw [Int.natCast_eq_zero]
    exact and128_eq_zero_iff f hf
  have hs : ((0 : Int) < ((f &&& 64 : Nat) : Int)) ↔ f &&& 64 ≠ 0 := by
    rw [Int.natCast_pos]
    omega
  simp only [byteAt, getElem?_append_cons, BITS6, BIT7, BIT8, bump]
  rw [jsAnd_natCast f 63 (by omega) (by norm_num)]
  simp only [jsAnd_natCast f 64 (by omega) (by norm_num),
    jsAnd_natCast f 128 (by omega) (by norm_num), gt_iff_lt, hs, hc]

/-- C2 (amended): `readVarInt` decodes the first byte's bit `0x40` as the
sign, its low 6 bits as the least-significant payload bits, and bit
`0x80` as the continuation flag; subsequent bytes contribute 7 payload
bits each with the bit offset starting at 6; the sign is applied by
multiplying the assembled magnitude by -1 when the sign bit was set
(`varIntSpec`); a first byte with the sign bit set, zero magnitude and no
continuation decodes to zero. Amendment (forced by
`readVarInt_wraps_counterexample`): this holds for encodings whose
assembled magnitude is below `2^31`; magnitudes of `2^31` and above wrap
through 32-bit signed arithmetic instead of following the spec formula. -/
theorem readVarInt_decodes_signed :
    (∀ (pre rest : List Nat) (f : Nat), f < 128 →
      readVarInt ⟨pre ++ f :: rest, pre.length⟩ =
        (.ok (varIntSpec [f]), ⟨pre ++ f :: rest, pre.length + 1⟩))
    ∧ (∀ (pre rest body : List Nat) (f t : Nat), 128 ≤ f → f < 256 →
        (∀ b ∈ body, 128 ≤ b ∧ b < 256) → t < 128 → body.length ≤ 4 →
        (f &&& 63) + 64 * varUintChunks (body ++ [t]) < 2147483648 →
        readVarInt ⟨pre ++ f :: (body ++ t :: rest), pre.length⟩ =
          (.ok (varIntSpec (f :: (body ++ [t]))),
           ⟨pre ++ f :: (body ++ t :: rest), pre.length + (body.length + 2)⟩)) := by
  constructor
  · intro pre rest f hf
    rw [readVarInt_first pre rest f (by omega), if_pos hf]
    simp only [varIntSpec, varUintChunks, Nat.cast_zero, Nat.mul_zero, mul_zero, add_zero]
  · intro pre rest body f t hf128 hf256 hbody ht hblen htotal
    rw [readVarInt_first pre (body ++ t :: rest) f hf256, if_neg (by omega)]
    have hand63 : f &&& 63 < 64 := lt_of_le_of_lt Nat.and_le_right (by norm_num)
    have h := readVarIntAux_ok body (pre ++ [f]) rest t 0 (f &&& 63) 7
      (if f &&& 64 ≠ 0 then (-1 : Int) else 1) hbody ht (by omega) (by omega)
      (by norm_num; omega) (by simpa using htotal)
    simp only [List.append_assoc, List.singleton_append, List.length_append,
      List.length_cons, List.length_nil, Nat.add_zero, Nat.mul_zero] at h
    rw [h]
    simp only [varIntSpec, Prod.mk.injEq, Except.ok.injEq, Decoder.mk.injEq, true_and, and_true]
    refine ⟨?_, by omega⟩
    congr 1

/-- Counterexample to C2 as stated: the 5-byte encoding
`[0x80, 0x80, 0x80, 0x80, 0x10]` has sign bit clear and assembled
magnitude `2^31` (`varIntSpec` value `2147483648`), but `readVarInt`
returns `-2147483648`: the 32-bit signed accumulator wraps. -/
theorem readVarInt_wraps_counterexample :
    readVarInt (createDecoder [128, 128, 128, 128, 16]) =
      (.ok (-2147483648), ⟨[128, 128, 128, 128, 16], 5⟩)
    ∧ varIntSpec [128, 128, 128, 128, 16] = 2147483648
    ∧ ((-2147483648 : Int) ≠ 2147483648) := by
  exact ⟨rfl, by decide, by decide⟩

/-- Witness for `readVarInt_decodes_signed`: `[0x40]` (sign bit set, zero
magnitude, no continuation) decodes to zero, and the 2-byte encoding
`[0xC1, 0x01]` decodes to `-(1 + 64)` = `-65`. -/
theorem readVarInt_decodes_signed_witness :
    readVarInt (createDecoder [64]) = (.ok 0, ⟨[64], 1⟩)
    ∧ readVarInt (createDecoder [193, 1]) = (.ok (-65), ⟨[193, 1], 2⟩) := by
  constructor
  · have h := readVarInt_decodes_signed.1 [] [] 64 (by norm_num)
    simp only [List.nil_append, List.length_nil, Nat.zero_add] at h
    rw [show varIntSpec [64] = 0 by decide] at h
    exact h
  · have h := readVarInt_decodes_signed.2 [] [] [] 193 1 (by norm_num) (by norm_num)
      (by simp) (by norm_num) (by norm_num) (by decide)
    simp only [List.nil_append, List.length_nil, Nat.zero_add] at h
    rw [show varIntSpec [193, 1] = -65 by decide] at h
    exact h

/-! ### Byte-consumption bound of the signed varint -/

theorem readVarIntAux_pos_le (fuel : Nat) :
    ∀ (d : Decoder) (sign num : Int) (len : Nat), 6 ≤ len → len ≤ 41 →
      (readVarIntAux fuel d sign num len).2.pos ≤ d.pos + (48 - len) / 7 := by
  induction fuel with
  | zero =>
    intro d sign num len h6 h41
    simp [readVarIntAux]
  | succ f ih =>
    intro d sign num len h6 h41
    rw [readVarIntAux]
    cases hb : byteAt d d.pos with
    | some r =>
      simp only
      split
      · simp only [bump]
        omega
      · split
        · simp only [bump]
          omega
        · have h := ih (bump d 1) sign (jsOr num (jsShl (jsAnd (r : Int) ((BITS7 : Nat) : Int)) len))
            (len + 7) (by omega) (by omega)
          simp only [bump] at h ⊢
          omega
    | none =>
      simp only
      split
      · simp only [bump]
        omega
      · have h := ih (bump d 1) sign (jsOr num (jsShl (jsAnd 0 ((BITS7 : Nat) : Int)) len))
          (len + 7) (by omega) (by omega)
        simp only [bump] at h ⊢
        omega

/-- One continuation pass of the signed varint loop. -/
theorem readVarIntAux_cont_step (fuel : Nat) (d : Decoder) (sign num : Int) (len b : Nat)
    (hb : byteAt d d.pos = some b) (h128 : 128 ≤ b) (hlen : len + 7 ≤ 41) :
    readVarIntAux (fuel + 1) d sign num len =
      readVarIntAux fuel (bump d 1) sign
        (jsOr num (jsShl (jsAnd (b : Int) ((BITS7 : Nat) : Int)) len)) (len + 7) := by
  simp only [readVarIntAux, hb, BIT8]
  rw [if_neg (by omega), if_neg (by omega)]

/-- The throwing pass of the signed varint loop. -/
theorem readVarIntAux_cont_throw (fuel : Nat) (d : Decoder) (sign num : Int) (len b : Nat)
    (hb : byteAt d d.pos = some b) (h128 : 128 ≤ b) (hlen : len + 7 > 41) :
    readVarIntAux (fuel + 1) d sign num len = (.error .IntegerOutOfRange, bump d 1) := by
  simp only [readVarIntAux, hb, BIT8]
  rw [if_neg (by omega), if_pos (by omega)]

/-- C5 (amended): `readVarInt` consumes at most 7 bytes (not 6 as
claimed): the error is raised only when a byte with the continuation bit
set pushes the accumulated bit count past 41, which happens after the
7th byte; in particular a stream whose first 7 bytes all have the
continuation bit set raises `IntegerOutOfRange` after consuming exactly
7 bytes, and no decode ever reads an 8th byte. -/
theorem readVarInt_consumes_at_most_seven :
    (∀ d : Decoder, (readVarInt d).2.pos ≤ d.pos + 7)
    ∧ (∀ d : Decoder,
        (∀ i, i < 7 → ∃ b, byteAt d (d.pos + i) = some b ∧ 128 ≤ b ∧ b < 256) →
        readVarInt d = (.error .IntegerOutOfRange, bump d 7)) := by
  constructor
  · intro d
    rw [readVarInt]
    cases hb : byteAt d d.pos with
    | some r =>
      simp only
      split
      · simp [bump]
      · have h := readVarIntAux_pos_le 7 (bump d 1)
          (if jsAnd (r : Int) ((BIT7 : Nat) : Int) > 0 then -1 else 1)
          (jsAnd (r : Int) ((BITS6 : Nat) : Int)) 6 (by omega) (by omega)
        simp only [bump] at h ⊢
        omega
    | none =>
      simp [bump]
  · intro d h
    obtain ⟨b0, hb0, h0, g0⟩ := h 0 (by norm_num)
    obtain ⟨b1, hb1, h1, _⟩ := h 1 (by norm_num)
    obtain ⟨b2, hb2, h2, _⟩ := h 2 (by norm_num)
    obtain ⟨b3, hb3, h3, _⟩ := h 3 (by norm_num)
    obtain ⟨b4, hb4, h4, _⟩ := h 4 (by norm_num)
    obtain ⟨b5, hb5, h5, _⟩ := h 5 (by norm_num)
    obtain ⟨b6, hb6, h6, _⟩ := h 6 (by norm_num)
    rw [Nat.add_zero] at hb0
    have e1 : byteAt (bump d 1) (bump d 1).pos = some b1 := by
      simpa [bump, byteAt] using hb1
    have e2 : byteAt (bump (bump d 1) 1) (bump (bump d 1) 1).pos = some b2 := by
      simpa [bump, byteAt, Nat.add_assoc] using hb2
    have e3 : byteAt (bump (bump (bump d 1) 1) 1) (bump (bump (bump d 1) 1) 1).pos = some b3 := by
      simpa [bump, byteAt, Nat.add_assoc] using hb3
    have e4 : byteAt (bump (bump (bump (bump d 1) 1) 1) 1)
        (bump (bump (bump (bump d 1) 1) 1) 1).pos = some b4 := by
      simpa [bump, byteAt, Nat.add_assoc] using hb4
    have e5 : byteAt (bump (bump (bump (bump (bump d 1) 1) 1) 1) 1)
        (bump (bump (bump (bump (bump d 1) 1) 1) 1) 1).pos = some b5 := by
      simpa [bump, byteAt, Nat.add_assoc] using hb5
    have e6 : byteAt (bump (bump (bump (bump (bump (bump d 1) 1) 1) 1) 1) 1)
        (bump (bump (bump (bump (bump (bump d 1) 1) 1) 1) 1) 1).pos = some b6 := by
      simpa [bump, byteAt, Nat.add_assoc] using hb6
    rw [readVarInt, hb0]
    simp only
    rw [if_neg ?hcont]
    case hcont =>
      simp only [BIT8]
      rw [jsAnd_natCast b0 128 (by omega) (by norm_num)]
      simp only [Int.natCast_eq_zero]
      intro hz
      have hlt := (and128_eq_zero_iff b0 g0).mp hz
      omega
    rw [readVarIntAux_cont_step 6 _ _ _ 6 b1 e1 h1 (by norm_num),
      readVarIntAux_cont_step 5 _ _ _ 13 b2 e2 h2 (by norm_num),
      readVarIntAux_cont_step 4 _ _ _ 20 b3 e3 h3 (by norm_num),
      readVarIntAux_cont_step 3 _ _ _ 27 b4 e4 h4 (by norm_num),
      readVarIntAux_cont_step 2 _ _ _ 34 b5 e5 h5 (by norm_num),
      readVarIntAux_cont_throw 1 _ _ _ 41 b6 e6 h6 (by norm_num)]
    simp only [bump]

/-- Witness for `readVarInt_consumes_at_most_seven`: seven `0x80` bytes
raise `IntegerOutOfRange` with the cursor on 7, and the bound holds at
that decoder. -/
theorem readVarInt_consumes_at_most_seven_witness :
    readVarInt (createDecoder [128, 128, 128, 128, 128, 128, 128]) =
      (.error .IntegerOutOfRange, bump (createDecoder [128, 128, 128, 128, 128, 128, 128]) 7)
    ∧ (readVarInt (createDecoder [128, 128, 128, 128, 128, 128, 128])).2.pos ≤
        (createDecoder [128, 128, 128, 128, 128, 128, 128]).pos + 7 := by
  constructor
  · refine readVarInt_consumes_at_most_seven.2 _ ?_
    intro i hi
    interval_cases i <;> exact ⟨128, rfl, by norm_num, by norm_num⟩
  · exact readVarInt_consumes_at_most_seven.1 _

/-- Counterexample to C5 as stated: on the stream
`[0x80, 0x80, 0x80, 0x80, 0x80, 0x80, 0x01]` the decode succeeds after
consuming 7 bytes (the final cursor is 7, one more than the claimed
6-byte maximum); due to the ECMAScript shift-count wrap the 7th byte's
payload lands at bit 9, giving the value 512. -/
theorem readVarInt_seven_bytes_counterexample :
    readVarInt (createDecoder [128, 128, 128, 128, 128, 128, 1]) =
      (.ok 512, ⟨[128, 128, 128, 128, 128, 128, 1], 7⟩)
    ∧ ¬ ((readVarInt (createDecoder [128, 128, 128, 128, 128, 128, 1])).2.pos ≤
          (createDecoder [128, 128, 128, 128, 128, 128, 1]).pos + 6) := by
  exact ⟨rfl, by decide⟩

/-! ### Structural properties of the readers -/

theorem getElem?_none_of_le {l : List Nat} {i : Nat} (h : l.length ≤ i) : l[i]? = none := by
  exact List.getElem?_eq_none h

theorem lt_length_of_byteAt_some {d : Decoder} {i b : Nat} (h : byteAt d i = some b) :
    i < d.arr.length := by
  by_contra hge
  rw [byteAt, getElem?_none_of_le (by omega)] at h
  exact Option.noConfusion h

theorem byteAt_none_ge {d : Decoder} {i : Nat} (h : byteAt d i = none) :
    d.arr.length ≤ i := by
  by_contra hlt
  rw [byteAt, List.getElem?_eq_getElem (by omega)] at h
  exact Option.noConfusion h

theorem readVarUintAux_props (fuel : Nat) :
    ∀ (d : Decoder) (num : Int) (len : Nat),
      (readVarUintAux fuel d num len).2.arr = d.arr ∧
      d.pos ≤ (readVarUintAux fuel d num len).2.pos ∧
      (∀ v d', readVarUintAux fuel d num len = (.ok v, d') →
        d.pos < d'.pos ∧ d'.pos ≤ d.arr.length) := by
  induction fuel with
  | zero =>
    intro d num len
    refine ⟨by simp [readVarUintAux], by simp [readVarUintAux], fun v d' h => ?_⟩
    simp [readVarUintAux] at h
  | succ f ih =>
    intro d num len
    rw [readVarUintAux]
    cases hb : byteAt d d.pos with
    | some r =>
      simp only [bump]
      split
      · refine ⟨rfl, by dsimp only; omega, fun v d' h => ?_⟩
        injection h with hv hd
        subst hd
        dsimp only
        have := lt_length_of_byteAt_some hb
        exact ⟨by omega, by omega⟩
      · split
        · refine ⟨rfl, by dsimp only; omega, fun v d' h => ?_⟩
          exact absurd h (by simp)
        · obtain ⟨ha, hp, hok⟩ := ih ⟨d.arr, d.pos + 1⟩
            (jsOr num (jsShl (jsAnd (r : Int) ((BITS7 : Nat) : Int)) len)) (len + 7)
          try dsimp only at ha hp hok ⊢
          refine ⟨ha, by omega, fun v d' h => ?_⟩
          obtain ⟨h1, h2⟩ := hok v d' h
          try dsimp only at h1 h2
          exact ⟨by omega, h2⟩
    | none =>
      simp only [bump]
      split
      · refine ⟨rfl, by dsimp only; omega, fun v d' h => ?_⟩
        exact absurd h (by simp)
      · obtain ⟨ha, hp, hok⟩ := ih ⟨d.arr, d.pos + 1⟩
          (jsOr num (jsShl (jsAnd 0 ((BITS7 : Nat) : Int)) len)) (len + 7)
        try dsimp only at ha hp hok ⊢
        refine ⟨ha, by omega, fun v d' h => ?_⟩
        obtain ⟨h1, h2⟩ := hok v d' h
        try dsimp only at h1 h2
        exact ⟨by omega, h2⟩

theorem readVarUint_arr (d : Decoder) : (readVarUint d).2.arr = d.arr :=
  (readVarUintAux_props 7 d 0 0).1

theorem readVarUint_pos_le (d : Decoder) : d.pos ≤ (readVarUint d).2.pos :=
  (readVarUintAux_props 7 d 0 0).2.1

theorem readVarUint_ok_bounds {d : Decoder} {v : Nat} {d' : Decoder}
    (h : readVarUint d = (.ok v, d')) : d.pos < d'.pos ∧ d'.pos ≤ d.arr.length :=
  (readVarUintAux_props 7 d 0 0).2.2 v d' h

theorem readUint8Array_props (d : Decoder) (len : Nat) :
    (readUint8Array d len).2.arr = d.arr ∧
    d.pos ≤ (readUint8Array d len).2.pos ∧
    (∀ v d', readUint8Array d len = (.ok v, d') →
      d'.pos = d.pos + len ∧ d'.pos ≤ d.arr.length) := by
  unfold readUint8Array
  split
  · rename_i hle
    refine ⟨rfl, ?_, fun v d' h => ?_⟩
    · show d.pos ≤ (bump d len).pos
      simp [bump]
    · injection h with hv hd
      subst hd
      refine ⟨rfl, ?_⟩
      show d.pos + len ≤ d.arr.length
      omega
  · refine ⟨rfl, Nat.le_refl _, fun v d' h => ?_⟩
    exact absurd h (by simp)

theorem readVarUint8Array_props (d : Decoder) :
    (readVarUint8Array d).2.arr = d.arr ∧
    d.pos ≤ (readVarUint8Array d).2.pos ∧
    (∀ v d', readVarUint8Array d = (.ok v, d') →
      d.pos < d'.pos ∧ d'.pos ≤ d.arr.length) := by
  cases hr : readVarUint d with
  | mk r d1 =>
    have ha : d1.arr = d.arr := by
      have h2 := readVarUint_arr d
      rw [hr] at h2
      exact h2
    have hp : d.pos ≤ d1.pos := by
      have h2 := readVarUint_pos_le d
      rw [hr] at h2
      exact h2
    cases r with
    | ok n =>
      have hred : readVarUint8Array d = readUint8Array d1 n := by
        unfold readVarUint8Array
        rw [hr]
      obtain ⟨ha8, hp8, hok8⟩ := readUint8Array_props d1 n
      have hb := readVarUint_ok_bounds hr
      rw [hred]
      refine ⟨by rw [ha8, ha], by omega, fun v d' h => ?_⟩
      obtain ⟨h1, h2⟩ := hok8 v d' h
      rw [ha] at h2
      exact ⟨by omega, h2⟩
    | error e =>
      have hred : readVarUint8Array d = (.error e, d1) := by
        unfold readVarUint8Array
        rw [hr]
      rw [hred]
      refine ⟨ha, hp, fun v d' h => ?_⟩
      exact absurd h (by simp)

theorem readVarString_eq (d : Decoder) : readVarString d = readVarUint8Array d := by
  unfold readVarString decodeUtf8
  cases h : readVarUint8Array d with
  | mk r d1 =>
    cases r <;> simp

theorem readVarIntAux_props (fuel : Nat) :
    ∀ (d : Decoder) (sign num : Int) (len : Nat),
      (readVarIntAux fuel d sign num len).2.arr = d.arr ∧
      d.pos ≤ (readVarIntAux fuel d sign num len).2.pos ∧
      (∀ v d', readVarIntAux fuel d sign num len = (.ok v, d') →
        d.pos < d'.pos ∧ d'.pos ≤ d.arr.length) := by
  induction fuel with
  | zero =>
    intro d sign num len
    refine ⟨by simp [readVarIntAux], by simp [readVarIntAux], fun v d' h => ?_⟩
    simp [readVarIntAux] at h
  | succ f ih =>
    intro d sign num len
    rw [readVarIntAux]
    cases hb : byteAt d d.pos with
    | some r =>
      simp only [bump]
      split
      · refine ⟨rfl, by dsimp only; omega, fun v d' h => ?_⟩
        injection h with hv hd
        subst hd
        dsimp only
        have := lt_length_of_byteAt_some hb
        exact ⟨by omega, by omega⟩
      · split
        · refine ⟨rfl, by dsimp only; omega, fun v d' h => ?_⟩
          exact absurd h (by simp)
        · obtain ⟨ha, hp, hok⟩ := ih ⟨d.arr, d.pos + 1⟩ sign
            (jsOr num (jsShl (jsAnd (r : Int) ((BITS7 : Nat) : Int)) len)) (len + 7)
          try dsimp only at ha hp hok ⊢
          refine ⟨ha, by omega, fun v d' h => ?_⟩
          obtain ⟨h1, h2⟩ := hok v d' h
          try dsimp only at h1 h2
          exact ⟨by omega, h2⟩
    | none =>
      simp only [bump]
      split
      · refine ⟨rfl, by dsimp only; omega, fun v d' h => ?_⟩
        exact absurd h (by simp)
      · obtain ⟨ha, hp, hok⟩ := ih ⟨d.arr, d.pos + 1⟩ sign
          (jsOr num (jsShl (jsAnd 0 ((BITS7 : Nat) : Int)) len)) (len + 7)
        try dsimp only at ha hp hok ⊢
        refine ⟨ha, by omega, fun v d' h => ?_⟩
        obtain ⟨h1, h2⟩ := hok v d' h
        try dsimp only at h1 h2
        exact ⟨by omega, h2⟩

theorem readVarInt_props (d : Decoder) :
    (readVarInt d).2.arr = d.arr ∧
    d.pos ≤ (readVarInt d).2.pos ∧
    (∀ v d', readVarInt d = (.ok v, d') → d.pos < d.arr.length →
      d.pos < d'.pos ∧ d'.pos ≤ d.arr.length) := by
  rw [readVarInt]
  cases hb : byteAt d d.pos with
  | some r =>
    simp only [bump]
    split
    · refine ⟨rfl, by dsimp only; omega, fun v d' h _ => ?_⟩
      injection h with hv hd
      subst hd
      dsimp only
      have := lt_length_of_byteAt_some hb
      exact ⟨by omega, by omega⟩
    · obtain ⟨ha, hp, hok⟩ := readVarIntAux_props 7 ⟨d.arr, d.pos + 1⟩
        (if jsAnd (r : Int) ((BIT7 : Nat) : Int) > 0 then -1 else 1)
        (jsAnd (r : Int) ((BITS6 : Nat) : Int)) 6
      try dsimp only at ha hp hok ⊢
      refine ⟨ha, by omega, fun v d' h _ => ?_⟩
      obtain ⟨h1, h2⟩ := hok v d' h
      try dsimp only at h1 h2
      exact ⟨by omega, h2⟩
  | none =>
    have hge := byteAt_none_ge hb
    refine ⟨rfl, by simp [bump], fun v d' h hlt => ?_⟩
    omega

/-! ### C6: truncated strings raise BufferUnderrun -/

/-- C6: whenever the declared varUint byte length exceeds the bytes
remaining after the length prefix, `readVarString` and
`readVarUint8Array` raise `BufferUnderrun` (never returning a truncated
string or view); the decoder is left where the length prefix ended. -/
theorem readVarString_underrun (d : Decoder) (n : Nat) (d1 : Decoder)
    (hu : readVarUint d = (.ok n, d1)) (hover : d.arr.length < d1.pos + n) :
    readVarString d = (.error .BufferUnderrun, d1)
    ∧ readVarUint8Array d = (.error .BufferUnderrun, d1) := by
  have ha : d1.arr = d.arr := by
    have := readVarUint_arr d
    rw [hu] at this
    exact this
  have h8 : readVarUint8Array d = (.error .BufferUnderrun, d1) := by
    have hred : readVarUint8Array d = readUint8Array d1 n := by
      unfold readVarUint8Array
      rw [hu]
    rw [hred]
    unfold readUint8Array
    rw [if_neg (by rw [ha]; omega)]
  exact ⟨by rw [readVarString_eq, h8], h8⟩

/-- Witness for `readVarString_underrun`: the stream `[5, 1, 2]` declares
a 5-byte string but only 2 bytes remain. -/
theorem readVarString_underrun_witness :
    readVarString (createDecoder [5, 1, 2]) = (.error .BufferUnderrun, ⟨[5, 1, 2], 1⟩)
    ∧ readVarUint8Array (createDecoder [5, 1, 2]) = (.error .BufferUnderrun, ⟨[5, 1, 2], 1⟩) :=
  readVarString_underrun _ 5 ⟨[5, 1, 2], 1⟩ rfl (by decide)

/-! ### C7: peek and the cursor -/

/-- C7 (amended): `peekVarUint` and `peekVarString` restore the cursor
and return the underlying read's value when that read succeeds; when it
fails, the error propagates and the cursor stays where the failed read
left it (it is not restored — forced by
`peekVarUint_mutates_on_failure`). -/
theorem peek_restores_cursor_on_success :
    (∀ (d : Decoder) (v : Nat) (d' : Decoder), readVarUint d = (.ok v, d') →
      peekVarUint d = (.ok v, d))
    ∧ (∀ (d : Decoder) (e : Err) (d' : Decoder), readVarUint d = (.error e, d') →
      peekVarUint d = (.error e, d'))
    ∧ (∀ (d : Decoder) (s : List Nat) (d' : Decoder), readVarString d = (.ok s, d') →
      peekVarString d = (.ok s, d))
    ∧ (∀ (d : Decoder) (e : Err) (d' : Decoder), readVarString d = (.error e, d') →
      peekVarString d = (.error e, d')) := by
  refine ⟨fun d v d' h => ?_, fun d e d' h => ?_, fun d s d' h => ?_, fun d e d' h => ?_⟩
  · have ha : d'.arr = d.arr := by
      have h2 := readVarUint_arr d
      rw [h] at h2
      exact h2
    have hred : peekVarUint d = (.ok v, { d' with pos := d.pos }) := by
      unfold peekVarUint
      rw [h]
    rw [hred]
    congr 1
    rw [show ({ d' with pos := d.pos } : Decoder) = ⟨d'.arr, d.pos⟩ from rfl, ha]
  · have hred : peekVarUint d = (.error e, d') := by
      unfold peekVarUint
      rw [h]
    exact hred
  · have ha : d'.arr = d.arr := by
      have h2 : (readVarString d).2.arr = d.arr := by
        rw [readVarString_eq]
        exact (readVarUint8Array_props d).1
      rw [h] at h2
      exact h2
    have hred : peekVarString d = (.ok s, { d' with pos := d.pos }) := by
      unfold peekVarString
      rw [h]
    rw [hred]
    congr 1
    rw [show ({ d' with pos := d.pos } : Decoder) = ⟨d'.arr, d.pos⟩ from rfl, ha]
  · have hred : peekVarString d = (.error e, d') := by
      unfold peekVarString
      rw [h]
    exact hred

/-- Counterexample to C7 as stated: on six continuation bytes the
underlying `readVarUint` throws after consuming them, the restoring
assignment never runs, and `peekVarUint` leaves the cursor at 6 instead
of the starting 0. -/
theorem peekVarUint_mutates_on_failure :
    peekVarUint (createDecoder [128, 128, 128, 128, 128, 128]) =
      (.error .IntegerOutOfRange, ⟨[128, 128, 128, 128, 128, 128], 6⟩)
    ∧ (createDecoder [128, 128, 128, 128, 128, 128]).pos = 0
    ∧ (6 : Nat) ≠ 0 :=
  ⟨rfl, rfl, by decide⟩

/-- Witness for `peek_restores_cursor_on_success`: peeking `[200, 3]`
returns 456 and leaves the cursor at 0. -/
theorem peek_restores_cursor_on_success_witness :
    peekVarUint (createDecoder [200, 3]) = (.ok 456, createDecoder [200, 3])
    ∧ peekVarString (createDecoder [1, 97]) = (.ok [97], createDecoder [1, 97]) :=
  ⟨peek_restores_cursor_on_success.1 _ 456 ⟨[200, 3], 2⟩ rfl,
   peek_restores_cursor_on_success.2.2.1 _ [97] ⟨[1, 97], 2⟩ rfl⟩

/-! ### C8: readUint32 -/

theorem toInt32_natCast_small (b : Nat) (hb : b < 2147483648) : toInt32 (b : Int) = (b : Int) := by
  unfold toInt32
  rw [toUint32_natCast, Nat.mod_eq_of_lt (by omega)]
  exact ofUint32_small hb

theorem jsByte_some {d : Decoder} {i b : Nat} (h : byteAt d i = some b) :
    jsByte d i = .num b := by
  rw [jsByte, h]

theorem jsByte_none {d : Decoder} {i : Nat} (h : byteAt d i = none) :
    jsByte d i = .undefined := by
  rw [jsByte, h]

/-- C8: `readUint32` reads exactly 4 bytes little-endian, advances the
cursor by 4, and reassembles them as an unsigned 32-bit integer with no
sign extension: even when the high bit of the last byte is set (so the
intermediate `<< 24` arithmetic is a negative 32-bit signed value), the
result is `b0 + b1*2^8 + b2*2^16 + b3*2^24`, which lies below `2^32`. -/
theorem readUint32_unsigned_le (d : Decoder) (b0 b1 b2 b3 : Nat)
    (h0 : byteAt d d.pos = some b0) (h1 : byteAt d (d.pos + 1) = some b1)
    (h2 : byteAt d (d.pos + 2) = some b2) (h3 : byteAt d (d.pos + 3) = some b3)
    (hb0 : b0 < 256) (hb1 : b1 < 256) (hb2 : b2 < 256) (hb3 : b3 < 256) :
    readUint32 d =
      (b0 + b1 * 2 ^ 8 + b2 * 2 ^ 16 + b3 * 2 ^ 24, bump d 4)
    ∧ b0 + b1 * 2 ^ 8 + b2 * 2 ^ 16 + b3 * 2 ^ 24 < 2 ^ 32 := by
  refine ⟨?_, by omega⟩
  unfold readUint32
  rw [jsByte_some h0, jsByte_some h1, jsByte_some h2, jsByte_some h3]
  simp only [jsShlV, JsVal.asInt32, jsAdd, jsShrU0]
  rw [toInt32_natCast_small b1 (by omega), toInt32_natCast_small b2 (by omega),
    toInt32_natCast_small b3 (by omega),
    jsShl_natCast b1 8 (by omega), jsShl_natCast b2 16 (by omega),
    jsShl_natCast b3 24 (by omega)]
  norm_num
  rw [Nat.mod_eq_of_lt (show b1 * 256 < 4294967296 by omega),
    Nat.mod_eq_of_lt (show b2 * 65536 < 4294967296 by omega),
    Nat.mod_eq_of_lt (show b3 * 16777216 < 4294967296 by omega),
    ofUint32_small (show b1 * 256 < 2147483648 by omega),
    ofUint32_small (show b2 * 65536 < 2147483648 by omega)]
  unfold ofUint32 toUint32
  split <;> omega

/-- Witness for `readUint32_unsigned_le`: the bytes `[1, 2, 3, 255]`
(high bit of the last byte set) read as `4278387201`. -/
theorem readUint32_unsigned_le_witness :
    readUint32 (createDecoder [1, 2, 3, 255]) = (4278387201, bump (createDecoder [1, 2, 3, 255]) 4)
    ∧ (4278387201 : Nat) < 2 ^ 32 := by
  have h := readUint32_unsigned_le (createDecoder [1, 2, 3, 255]) 1 2 3 255
    rfl rfl rfl rfl (by norm_num) (by norm_num) (by norm_num) (by norm_num)
  exact ⟨by rw [h.1]; norm_num, by norm_num⟩

/-! ### C10: no bounds checks on the fixed-width readers -/

/-- C10: the fixed-width readers perform no bounds check. For every
decoder whose position is at or past the end of the array, `readUint8`,
`readUint16`, `readUint32` and `skip8` return normally (their types in
this embedding are total — no `BufferUnderrun` is possible), still
advance the position by 1, 2, 4 and 1 respectively, and return a value
derived from the absent bytes: `undefined` for `readUint8`, `NaN` for
`readUint16`, and `0` (NaN coerced by `>>> 0`) for `readUint32`. -/
theorem fixed_width_reads_no_bounds_check (d : Decoder) (h : d.arr.length ≤ d.pos) :
    readUint8 d = (.undefined, bump d 1)
    ∧ readUint16 d = (.nan, bump d 2)
    ∧ readUint32 d = (0, bump d 4)
    ∧ skip8 d = (d.pos, bump d 1) := by
  have hn : ∀ k, byteAt d (d.pos + k) = none := fun k => by
    rw [byteAt]
    exact getElem?_none_of_le (by omega)
  have hn0 : byteAt d d.pos = none := by
    have := hn 0
    rwa [Nat.add_zero] at this
  refine ⟨?_, ?_, ?_, rfl⟩
  · unfold readUint8
    rw [jsByte_none hn0]
  · unfold readUint16
    rw [jsByte_none hn0, jsByte_none (hn 1)]
    rfl
  · unfold readUint32
    rw [jsByte_none hn0, jsByte_none (hn 1), jsByte_none (hn 2), jsByte_none (hn 3)]
    rfl

/-- Witness for `fixed_width_reads_no_bounds_check`: the empty decoder. -/
theorem fixed_width_reads_no_bounds_check_witness :
    readUint8 (createDecoder []) = (.undefined, ⟨[], 1⟩)
    ∧ readUint16 (createDecoder []) = (.nan, ⟨[], 2⟩)
    ∧ readUint32 (createDecoder []) = (0, ⟨[], 4⟩)
    ∧ skip8 (createDecoder []) = (0, ⟨[], 1⟩) :=
  fixed_width_reads_no_bounds_check (createDecoder []) (by decide)

/-! ### C9: the cursor invariant -/

theorem applyOp_preserves (op : Op) (d : Decoder) (hg : opInBounds op d = true)
    (hp : d.pos ≤ d.arr.length) :
    (applyOp op d).arr = d.arr ∧ (applyOp op d).pos ≤ d.arr.length := by
  cases op with
  | skip8Op =>
    simp only [opInBounds, decide_eq_true_eq] at hg
    simp only [applyOp, skip8, bump]
    exact ⟨by trivial, by omega⟩
  | readUint8Op =>
    simp only [opInBounds, decide_eq_true_eq] at hg
    simp only [applyOp, readUint8, bump]
    exact ⟨by trivial, by omega⟩
  | readUint16Op =>
    simp only [opInBounds, decide_eq_true_eq] at hg
    simp only [applyOp, readUint16, bump]
    exact ⟨by trivial, by omega⟩
  | readUint32Op =>
    simp only [opInBounds, decide_eq_true_eq] at hg
    simp only [applyOp, readUint32, bump]
    exact ⟨by trivial, by omega⟩
  | readVarUintOp =>
    simp only [applyOp]
    cases hr : readVarUint d with
    | mk r d1 =>
      simp only [opInBounds, hr] at hg
      cases r with
      | ok n =>
        have hb := readVarUint_ok_bounds hr
        have ha : d1.arr = d.arr := by
          have h2 := readVarUint_arr d
          rw [hr] at h2
          exact h2
        dsimp only
        exact ⟨ha, by omega⟩
      | error e => exact Bool.noConfusion (show (false : Bool) = true from hg)
  | readVarIntOp =>
    simp only [applyOp]
    cases hr : readVarInt d with
    | mk r d1 =>
      simp only [opInBounds, hr, Bool.and_eq_true, decide_eq_true_eq] at hg
      cases r with
      | ok n =>
        obtain ⟨ha0, _, hok⟩ := readVarInt_props d
        rw [hr] at ha0
        have hb := hok n d1 hr hg.2
        dsimp only at ha0 ⊢
        exact ⟨ha0, by omega⟩
      | error e => exact Bool.noConfusion (show (false : Bool) = true from hg.1)
  | readVarStringOp =>
    simp only [applyOp]
    cases hr : readVarString d with
    | mk r d1 =>
      simp only [opInBounds, hr] at hg
      have hr8 : readVarUint8Array d = (r, d1) := by rw [← readVarString_eq, hr]
      cases r with
      | ok s =>
        obtain ⟨ha0, _, hok⟩ := readVarUint8Array_props d
        rw [hr8] at ha0
        have hb := hok s d1 hr8
        dsimp only at ha0 ⊢
        exact ⟨ha0, by omega⟩
      | error e => exact Bool.noConfusion (show (false : Bool) = true from hg)
  | readVarUint8ArrayOp =>
    simp only [applyOp]
    cases hr : readVarUint8Array d with
    | mk r d1 =>
      simp only [opInBounds, hr] at hg
      cases r with
      | ok s =>
        obtain ⟨ha0, _, hok⟩ := readVarUint8Array_props d
        rw [hr] at ha0
        have hb := hok s d1 hr
        dsimp only at ha0 ⊢
        exact ⟨ha0, by omega⟩
      | error e => exact Bool.noConfusion (show (false : Bool) = true from hg)
  | peekVarUintOp =>
    simp only [applyOp]
    cases hr : readVarUint d with
    | mk r d1 =>
      simp only [opInBounds, hr] at hg
      cases r with
      | ok n =>
        have hpk := peek_restores_cursor_on_success.1 d n d1 hr
        rw [hpk]
        exact ⟨rfl, hp⟩
      | error e => exact Bool.noConfusion (show (false : Bool) = true from hg)
  | peekVarStringOp =>
    simp only [applyOp]
    cases hr : readVarString d with
    | mk r d1 =>
      simp only [opInBounds, hr] at hg
      cases r with
      | ok s =>
        have hpk := peek_restores_cursor_on_success.2.2.1 d s d1 hr
        rw [hpk]
        exact ⟨rfl, hp⟩
      | error e => exact Bool.noConfusion (show (false : Bool) = true from hg)
  | cloneOp =>
    simp only [applyOp, cloneDefault, clone, createDecoder]
    exact ⟨by trivial, hp⟩

theorem runOps_preserves (ops : List Op) :
    ∀ d : Decoder, opsInBounds ops d = true → d.pos ≤ d.arr.length →
      (runOps ops d).arr = d.arr ∧ (runOps ops d).pos ≤ d.arr.length := by
  induction ops with
  | nil =>
    intro d _ hp
    exact ⟨rfl, hp⟩
  | cons op ops ih =>
    intro d hg hp
    simp only [opsInBounds, Bool.and_eq_true] at hg
    obtain ⟨ha1, hp1⟩ := applyOp_preserves op d hg.1 hp
    obtain ⟨ha2, hp2⟩ := ih (applyOp op d) hg.2 (by rw [ha1]; exact hp1)
    simp only [runOps]
    rw [ha1] at ha2 hp2
    exact ⟨ha2, hp2⟩

/-- C9 (amended): the cursor starts at 0 on construction and, the
position being a natural number that operations only increase or restore
to an earlier saved value, it never becomes negative; after any sequence
of reads, skips, peeks and clones **each performed within bounds**
(fixed-width reads and skips with enough bytes left, variable-length
reads succeeding) the position never exceeds the length of the
underlying byte array. The in-bounds proviso is forced by
`skip8_breaks_invariant_counterexample`: the unchecked fixed-width
operations can push the position past the end. -/
theorem decoder_position_invariant :
    (∀ arr : List Nat, (createDecoder arr).pos = 0)
    ∧ (∀ (arr : List Nat) (ops : List Op), opsInBounds ops (createDecoder arr) = true →
        (runOps ops (createDecoder arr)).arr = arr
        ∧ (runOps ops (createDecoder arr)).pos ≤ arr.length) := by
  refine ⟨fun arr => rfl, fun arr ops hg => ?_⟩
  exact runOps_preserves ops (createDecoder arr) hg (by simp [createDecoder])

/-- Counterexample to C9 as stated: a single `skip8` on an empty decoder
leaves the position at 1, strictly beyond the array length 0. -/
theorem skip8_breaks_invariant_counterexample :
    (runOps [Op.skip8Op] (createDecoder [])).pos = 1
    ∧ (createDecoder ([] : List Nat)).arr.length = 0
    ∧ ¬ ((runOps [Op.skip8Op] (createDecoder [])).pos ≤
          (runOps [Op.skip8Op] (createDecoder [])).arr.length) :=
  ⟨rfl, rfl, by decide⟩

/-- Witness for `decoder_position_invariant`: on `[1, 200, 3, 9]` the
sequence readUint8, readVarUint, skip8 stays within bounds and ends with
the cursor at 4 = length. -/
theorem decoder_position_invariant_witness :
    (createDecoder [1, 200, 3, 9]).pos = 0
    ∧ ((runOps [Op.readUint8Op, Op.readVarUintOp, Op.skip8Op] (createDecoder [1, 200, 3, 9])).arr
        = [1, 200, 3, 9]
      ∧ (runOps [Op.readUint8Op, Op.readVarUintOp, Op.skip8Op]
          (createDecoder [1, 200, 3, 9])).pos ≤ [1, 200, 3, 9].length) :=
  ⟨decoder_position_invariant.1 [1, 200, 3, 9],
   decoder_position_invariant.2 [1, 200, 3, 9] [Op.readUint8Op, Op.readVarUintOp, Op.skip8Op] rfl⟩

/-! ### C3: the readAny dispatch -/

theorem readAnyF_succ_none (f : Nat) (d : Decoder) (hb : byteAt d d.pos = none) :
    readAnyF (f + 1) d = some (.error .UnknownTag, bump d 1) := by
  rw [readAnyF]
  simp only [hb]

theorem readAnyF_succ_127 (f : Nat) (d : Decoder) (hb : byteAt d d.pos = some 127) :
    readAnyF (f + 1) d = some (.ok .undefined, bump d 1) := by
  rw [readAnyF]
  simp only [hb]
  norm_num

theorem readAnyF_succ_126 (f : Nat) (d : Decoder) (hb : byteAt d d.pos = some 126) :
    readAnyF (f + 1) d = some (.ok .null, bump d 1) := by
  rw [readAnyF]
  simp only [hb]
  norm_num

theorem readAnyF_succ_125 (f : Nat) (d : Decoder) (hb : byteAt d d.pos = some 125) :
    readAnyF (f + 1) d = some (mapRes Any.integer (readVarInt (bump d 1))) := by
  rw [readAnyF]
  simp only [hb]
  norm_num

theorem readAnyF_succ_124 (f : Nat) (d : Decoder) (hb : byteAt d d.pos = some 124) :
    readAnyF (f + 1) d = some (mapRes Any.float32 (readFloat32 (bump d 1))) := by
  rw [readAnyF]
  simp only [hb]
  norm_num

theorem readAnyF_succ_123 (f : Nat) (d : Decoder) (hb : byteAt d d.pos = some 123) :
    readAnyF (f + 1) d = some (mapRes Any.float64 (readFloat64 (bump d 1))) := by
  rw [readAnyF]
  simp only [hb]
  norm_num

theorem readAnyF_succ_122 (f : Nat) (d : Decoder) (hb : byteAt d d.pos = some 122) :
    readAnyF (f + 1) d = some (mapRes Any.int64 (readBigInt64 (bump d 1))) := by
  rw [readAnyF]
  simp only [hb]
  norm_num

theorem readAnyF_succ_121 (f : Nat) (d : Decoder) (hb : byteAt d d.pos = some 121) :
    readAnyF (f + 1) d = some (.ok (.boolean false), bump d 1) := by
  rw [readAnyF]
  simp only [hb]
  norm_num

theorem readAnyF_succ_120 (f : Nat) (d : Decoder) (hb : byteAt d d.pos = some 120) :
    readAnyF (f + 1) d = some (.ok (.boolean true), bump d 1) := by
  rw [readAnyF]
  simp only [hb]
  norm_num

theorem readAnyF_succ_119 (f : Nat) (d : Decoder) (hb : byteAt d d.pos = some 119) :
    readAnyF (f + 1) d = some (mapRes Any.string (readVarString (bump d 1))) := by
  rw [readAnyF]
  simp only [hb]
  norm_num

theorem readAnyF_succ_118 (f : Nat) (d : Decoder) (hb : byteAt d d.pos = some 118) :
    readAnyF (f + 1) d =
      (match readVarUint (bump d 1) with
        | (.ok len, d2) =>
          (match readPairsF f len d2 with
            | none => none
            | some (.ok ps, d3) => some (.ok (.record ps), d3)
            | some (.error e, d3) => some (.error e, d3))
        | (.error e, d2) => some (.error e, d2)) := by
  rw [readAnyF]
  simp only [hb]
  norm_num

theorem readAnyF_succ_117 (f : Nat) (d : Decoder) (hb : byteAt d d.pos = some 117) :
    readAnyF (f + 1) d =
      (match readVarUint (bump d 1) with
        | (.ok len, d2) =>
          (match readElemsF f len d2 with
            | none => none
            | some (.ok vs, d3) => some (.ok (.array vs), d3)
            | some (.error e, d3) => some (.error e, d3))
        | (.error e, d2) => some (.error e, d2)) := by
  rw [readAnyF]
  simp only [hb]
  norm_num

theorem readAnyF_succ_116 (f : Nat) (d : Decoder) (hb : byteAt d d.pos = some 116) :
    readAnyF (f + 1) d = some (mapRes Any.bytes (readVarUint8Array (bump d 1))) := by
  rw [readAnyF]
  simp only [hb]
  norm_num

theorem readAnyF_succ_other (f : Nat) (d : Decoder) (t : Nat)
    (hb : byteAt d d.pos = some t) (ht : t < 116 ∨ 127 < t) :
    readAnyF (f + 1) d = some (.error .UnknownTag, bump d 1) := by
  have e127 : ¬ t = 127 := by omega
  have e126 : ¬ t = 126 := by omega
  have e125 : ¬ t = 125 := by omega
  have e124 : ¬ t = 124 := by omega
  have e123 : ¬ t = 123 := by omega
  have e122 : ¬ t = 122 := by omega
  have e121 : ¬ t = 121 := by omega
  have e120 : ¬ t = 120 := by omega
  have e119 : ¬ t = 119 := by omega
  have e118 : ¬ t = 118 := by omega
  have e117 : ¬ t = 117 := by omega
  have e116 : ¬ t = 116 := by omega
  rw [readAnyF]
  simp only [hb, if_neg e127, if_neg e126, if_neg e125, if_neg e124, if_neg e123,
    if_neg e122, if_neg e121, if_neg e120, if_neg e119, if_neg e118, if_neg e117,
    if_neg e116]

theorem readAnyF_mono_step (fuel : Nat) :
    (∀ d r, readAnyF fuel d = some r → readAnyF (fuel + 1) d = some r)
    ∧ (∀ n d r, readPairsF fuel n d = some r → readPairsF (fuel + 1) n d = some r)
    ∧ (∀ n d r, readElemsF fuel n d = some r → readElemsF (fuel + 1) n d = some r) := by
  induction fuel with
  | zero =>
    refine ⟨fun d r h => ?_, fun n d r h => ?_, fun n d r h => ?_⟩ <;>
      simp [readAnyF, readPairsF, readElemsF] at h
  | succ f ih =>
    obtain ⟨ihA, ihP, ihE⟩ := ih
    refine ⟨fun d r h => ?_, fun n d r h => ?_, fun n d r h => ?_⟩
    · cases hb : byteAt d d.pos with
      | none =>
        rw [readAnyF_succ_none f d hb] at h
        rw [readAnyF_succ_none (f + 1) d hb]
        exact h
      | some t =>
        by_cases h1 : t < 116
        · rw [readAnyF_succ_other f d t hb (by omega)] at h
          rw [readAnyF_succ_other (f + 1) d t hb (by omega)]
          exact h
        · by_cases h2 : 127 < t
          · rw [readAnyF_succ_other f d t hb (by omega)] at h
            rw [readAnyF_succ_other (f + 1) d t hb (by omega)]
            exact h
          · have hlo : 116 ≤ t := by omega
            have hhi : t ≤ 127 := by omega
            interval_cases t
            · rw [readAnyF_succ_116 f d hb] at h
              rw [readAnyF_succ_116 (f + 1) d hb]
              exact h
            · rw [readAnyF_succ_117 f d hb] at h
              rw [readAnyF_succ_117 (f + 1) d hb]
              cases hv : readVarUint (bump d 1) with
              | mk r2 d2 =>
                rw [hv] at h
                cases r2 with
                | error e => exact h
                | ok len =>
                  dsimp only at h ⊢
                  cases hp : readElemsF f len d2 with
                  | none =>
                    rw [hp] at h
                    exact Option.noConfusion h
                  | some pr =>
                    rw [hp] at h
                    rw [ihE len d2 pr hp]
                    exact h
            · rw [readAnyF_succ_118 f d hb] at h
              rw [readAnyF_succ_118 (f + 1) d hb]
              cases hv : readVarUint (bump d 1) with
              | mk r2 d2 =>
                rw [hv] at h
                cases r2 with
                | error e => exact h
                | ok len =>
                  dsimp only at h ⊢
                  cases hp : readPairsF f len d2 with
                  | none =>
                    rw [hp] at h
                    exact Option.noConfusion h
                  | some pr =>
                    rw [hp] at h
                    rw [ihP len d2 pr hp]
                    exact h
            · rw [readAnyF_succ_119 f d hb] at h
              rw [readAnyF_succ_119 (f + 1) d hb]
              exact h
            · rw [readAnyF_succ_120 f d hb] at h
              rw [readAnyF_succ_120 (f + 1) d hb]
              exact h
            · rw [readAnyF_succ_121 f d hb] at h
              rw [readAnyF_succ_121 (f + 1) d hb]
              exact h
            · rw [readAnyF_succ_122 f d hb] at h
              rw [readAnyF_succ_122 (f + 1) d hb]
              exact h
            · rw [readAnyF_succ_123 f d hb] at h
              rw [readAnyF_succ_123 (f + 1) d hb]
              exact h
            · rw [readAnyF_succ_124 f d hb] at h
              rw [readAnyF_succ_124 (f + 1) d hb]
              exact h
            · rw [readAnyF_succ_125 f d hb] at h
              rw [readAnyF_succ_125 (f + 1) d hb]
              exact h
            · rw [readAnyF_succ_126 f d hb] at h
              rw [readAnyF_succ_126 (f + 1) d hb]
              exact h
            · rw [readAnyF_succ_127 f d hb] at h
              rw [readAnyF_succ_127 (f + 1) d hb]
              exact h
    · cases n with
      | zero =>
        rw [readPairsF] at h ⊢
        exact h
      | succ m =>
        rw [readPairsF] at h ⊢
        cases hk : readVarString d with
        | mk rk d1 =>
          rw [hk] at h
          cases rk with
          | error e => exact h
          | ok k =>
            dsimp only at h ⊢
            cases ha : readAnyF f d1 with
            | none =>
              rw [ha] at h
              exact Option.noConfusion h
            | some ar =>
              rw [ha] at h
              rw [ihA d1 ar ha]
              obtain ⟨ares, d2⟩ := ar
              cases ares with
              | error e => exact h
              | ok v =>
                dsimp only at h ⊢
                cases hp : readPairsF f m d2 with
                | none =>
                  rw [hp] at h
                  exact Option.noConfusion h
                | some pr =>
                  rw [hp] at h
                  rw [ihP m d2 pr hp]
                  exact h
    · cases n with
      | zero =>
        rw [readElemsF] at h ⊢
        exact h
      | succ m =>
        rw [readElemsF] at h ⊢
        cases ha : readAnyF f d with
        | none =>
          rw [ha] at h
          exact Option.noConfusion h
        | some ar =>
          rw [ha] at h
          rw [ihA d ar ha]
          obtain ⟨ares, d1⟩ := ar
          cases ares with
          | error e => exact h
          | ok v =>
            dsimp only at h ⊢
            cases hp : readElemsF f m d1 with
            | none =>
              rw [hp] at h
              exact Option.noConfusion h
            | some pr =>
              rw [hp] at h
              rw [ihE m d1 pr hp]
              exact h

theorem readAnyF_mono {f f' : Nat} (hle : f ≤ f') :
    ∀ d r, readAnyF f d = some r → readAnyF f' d = some r := by
  induction f' with
  | zero =>
    intro d r h
    rw [Nat.le_zero.mp hle] at h
    simp [readAnyF] at h
  | succ g ih =>
    intro d r h
    rcases Nat.lt_or_ge f (g + 1) with hlt | hge
    · exact (readAnyF_mono_step g).1 d r (ih (by omega) d r h)
    · have hf : f = g + 1 := by omega
      rw [hf] at h
      exact h

theorem readPairsF_mono {f f' : Nat} (hle : f ≤ f') :
    ∀ n d r, readPairsF f n d = some r → readPairsF f' n d = some r := by
  induction f' with
  | zero =>
    intro n d r h
    rw [Nat.le_zero.mp hle] at h
    simp [readPairsF] at h
  | succ g ih =>
    intro n d r h
    rcases Nat.lt_or_ge f (g + 1) with hlt | hge
    · exact (readAnyF_mono_step g).2.1 n d r (ih (by omega) n d r h)
    · have hf : f = g + 1 := by omega
      rw [hf] at h
      exact h

theorem readElemsF_mono {f f' : Nat} (hle : f ≤ f') :
    ∀ n d r, readElemsF f n d = some r → readElemsF f' n d = some r := by
  induction f' with
  | zero =>
    intro n d r h
    rw [Nat.le_zero.mp hle] at h
    simp [readElemsF] at h
  | succ g ih =>
    intro n d r h
    rcases Nat.lt_or_ge f (g + 1) with hlt | hge
    · exact (readAnyF_mono_step g).2.2 n d r (ih (by omega) n d r h)
    · have hf : f = g + 1 := by omega
      rw [hf] at h
      exact h

theorem readAnyF_det {f f' : Nat} {d : Decoder} {r r' : Except Err Any × Decoder}
    (h : readAnyF f d = some r) (h' : readAnyF f' d = some r') : r = r' := by
  rcases Nat.le_total f f' with hle | hle
  · have h2 := readAnyF_mono hle d r h
    rw [h2] at h'
    exact Option.some.inj h'
  · have h2 := readAnyF_mono hle d r' h'
    rw [h2] at h
    exact (Option.some.inj h).symm

theorem readFromDataView_facts (d : Decoder) (len : Nat) :
    (readFromDataView d len).2.arr = d.arr ∧ d.pos ≤ (readFromDataView d len).2.pos := by
  unfold readFromDataView
  split
  · exact ⟨by trivial, by simp [bump]⟩
  · exact ⟨by trivial, Nat.le_refl _⟩

theorem readFloat32_facts (d : Decoder) :
    (readFloat32 d).2.arr = d.arr ∧ d.pos ≤ (readFloat32 d).2.pos := by
  obtain ⟨ha, hp⟩ := readFromDataView_facts d 4
  unfold readFloat32
  cases hr : readFromDataView d 4 with
  | mk r d1 =>
    rw [hr] at ha hp
    cases r with
    | ok bs => exact ⟨ha, hp⟩
    | error e => exact ⟨ha, hp⟩

theorem readFloat64_facts (d : Decoder) :
    (readFloat64 d).2.arr = d.arr ∧ d.pos ≤ (readFloat64 d).2.pos := by
  obtain ⟨ha, hp⟩ := readFromDataView_facts d 8
  unfold readFloat64
  cases hr : readFromDataView d 8 with
  | mk r d1 =>
    rw [hr] at ha hp
    cases r with
    | ok bs => exact ⟨ha, hp⟩
    | error e => exact ⟨ha, hp⟩

theorem readBigInt64_facts (d : Decoder) :
    (readBigInt64 d).2.arr = d.arr ∧ d.pos ≤ (readBigInt64 d).2.pos := by
  obtain ⟨ha, hp⟩ := readFromDataView_facts d 8
  unfold readBigInt64
  cases hr : readFromDataView d 8 with
  | mk r d1 =>
    rw [hr] at ha hp
    cases r with
    | ok bs => exact ⟨ha, hp⟩
    | error e => exact ⟨ha, hp⟩

theorem readVarInt_arr (d : Decoder) : (readVarInt d).2.arr = d.arr :=
  (readVarInt_props d).1

theorem readVarInt_pos_le (d : Decoder) : d.pos ≤ (readVarInt d).2.pos :=
  (readVarInt_props d).2.1

theorem mapRes_ok_elim {α β : Type} {g : α → β} {p : Except Err α × Decoder}
    {v : β} {d' : Decoder} (h : mapRes g p = (.ok v, d')) :
    p.2 = d' ∧ ∃ a, p.1 = .ok a ∧ v = g a := by
  obtain ⟨r, dx⟩ := p
  cases r with
  | ok a =>
    simp only [mapRes] at h
    injection h with h1 h2
    injection h1 with h1
    exact ⟨h2, a, rfl, h1.symm⟩
  | error e =>
    simp only [mapRes] at h
    injection h with h1 h2
    exact absurd h1 (by simp)

theorem readAnyF_progress (fuel : Nat) :
    (∀ d v d', readAnyF fuel d = some (.ok v, d') → d'.arr = d.arr ∧ d.pos < d'.pos)
    ∧ (∀ n d ps d', readPairsF fuel n d = some (.ok ps, d') → d'.arr = d.arr ∧ d.pos ≤ d'.pos)
    ∧ (∀ n d vs d', readElemsF fuel n d = some (.ok vs, d') → d'.arr = d.arr ∧ d.pos ≤ d'.pos) := by
  induction fuel with
  | zero =>
    refine ⟨fun d v d' h => ?_, fun n d ps d' h => ?_, fun n d vs d' h => ?_⟩ <;>
      simp [readAnyF, readPairsF, readElemsF] at h
  | succ f ih =>
    obtain ⟨ihA, ihP, ihE⟩ := ih
    have hmap : ∀ (sub : Decoder → Except Err Any × Decoder) (d : Decoder) (v : Any)
        (d' : Decoder),
        (sub (bump d 1)).2.arr = (bump d 1).arr → (bump d 1).pos ≤ (sub (bump d 1)).2.pos →
        sub (bump d 1) = ((.ok v : Except Err Any), d') → d'.arr = d.arr ∧ d.pos < d'.pos := by
      intro sub d v d' ha hp hs
      rw [hs] at ha hp
      simp only [bump] at ha hp
      exact ⟨ha, by omega⟩
    refine ⟨fun d v d' h => ?_, fun n d ps d' h => ?_, fun n d vs d' h => ?_⟩
    · cases hb : byteAt d d.pos with
      | none =>
        rw [readAnyF_succ_none f d hb] at h
        exact absurd h (by simp)
      | some t =>
        by_cases h1 : t < 116
        · rw [readAnyF_succ_other f d t hb (by omega)] at h
          exact absurd h (by simp)
        · by_cases h2 : 127 < t
          · rw [readAnyF_succ_other f d t hb (by omega)] at h
            exact absurd h (by simp)
          · have hlo : 116 ≤ t := by omega
            have hhi : t ≤ 127 := by omega
            interval_cases t
            · rw [readAnyF_succ_116 f d hb] at h
              obtain ⟨hd2, a, ha1, hv⟩ := mapRes_ok_elim (Option.some.inj h)
              obtain ⟨haa, hpp, _⟩ := readVarUint8Array_props (bump d 1)
              rw [hd2] at haa hpp
              simp only [bump] at haa hpp
              exact ⟨haa, by omega⟩
            · rw [readAnyF_succ_117 f d hb] at h
              cases hv : readVarUint (bump d 1) with
              | mk r2 d2 =>
                rw [hv] at h
                cases r2 with
                | error e =>
                  exact absurd h (by simp)
                | ok len =>
                  dsimp only at h
                  cases hp : readElemsF f len d2 with
                  | none =>
                    rw [hp] at h
                    exact Option.noConfusion h
                  | some pr =>
                    rw [hp] at h
                    obtain ⟨pres, d3⟩ := pr
                    cases pres with
                    | error e => exact absurd h (by simp)
                    | ok vs =>
                      have hinj := Option.some.inj h
                      injection hinj with hinj1 hinj2
                      subst hinj2
                      obtain ⟨he1, he2⟩ := ihE len d2 vs d3 hp
                      have hvb := readVarUint_ok_bounds hv
                      have hva : d2.arr = (bump d 1).arr := by
                        have h3 := readVarUint_arr (bump d 1)
                        rw [hv] at h3
                        exact h3
                      simp only [bump] at hva hvb
                      exact ⟨by rw [he1, hva], by omega⟩
            · rw [readAnyF_succ_118 f d hb] at h
              cases hv : readVarUint (bump d 1) with
              | mk r2 d2 =>
                rw [hv] at h
                cases r2 with
                | error e =>
                  exact absurd h (by simp)
                | ok len =>
                  dsimp only at h
                  cases hp : readPairsF f len d2 with
                  | none =>
                    rw [hp] at h
                    exact Option.noConfusion h
                  | some pr =>
                    rw [hp] at h
                    obtain ⟨pres, d3⟩ := pr
                    cases pres with
                    | error e => exact absurd h (by simp)
                    | ok ps =>
                      have hinj := Option.some.inj h
                      injection hinj with hinj1 hinj2
                      subst hinj2
                      obtain ⟨he1, he2⟩ := ihP len d2 ps d3 hp
                      have hvb := readVarUint_ok_bounds hv
                      have hva : d2.arr = (bump d 1).arr := by
                        have h3 := readVarUint_arr (bump d 1)
                        rw [hv] at h3
                        exact h3
                      simp only [bump] at hva hvb
                      exact ⟨by rw [he1, hva], by omega⟩
            · rw [readAnyF_succ_119 f d hb] at h
              obtain ⟨hd2, a, ha1, hv⟩ := mapRes_ok_elim (Option.some.inj h)
              have haa : (readVarString (bump d 1)).2.arr = (bump d 1).arr := by
                rw [readVarString_eq]
                exact (readVarUint8Array_props (bump d 1)).1
              have hpp : (bump d 1).pos ≤ (readVarString (bump d 1)).2.pos := by
                rw [readVarString_eq]
                exact (readVarUint8Array_props (bump d 1)).2.1
              rw [hd2] at haa hpp
              simp only [bump] at haa hpp
              exact ⟨haa, by omega⟩
            · rw [readAnyF_succ_120 f d hb] at h
              have hinj := Option.some.inj h
              injection hinj with hinj1 hinj2
              subst hinj2
              exact ⟨rfl, by simp [bump]⟩
            · rw [readAnyF_succ_121 f d hb] at h
              have hinj := Option.some.inj h
              injection hinj with hinj1 hinj2
              subst hinj2
              exact ⟨rfl, by simp [bump]⟩
            · rw [readAnyF_succ_122 f d hb] at h
              obtain ⟨hd2, a, ha1, hv⟩ := mapRes_ok_elim (Option.some.inj h)
              obtain ⟨haa, hpp⟩ := readBigInt64_facts (bump d 1)
              rw [hd2] at haa hpp
              simp only [bump] at haa hpp
              exact ⟨haa, by omega⟩
            · rw [readAnyF_succ_123 f d hb] at h
              obtain ⟨hd2, a, ha1, hv⟩ := mapRes_ok_elim (Option.some.inj h)
              obtain ⟨haa, hpp⟩ := readFloat64_facts (bump d 1)
              rw [hd2] at haa hpp
              simp only [bump] at haa hpp
              exact ⟨haa, by omega⟩
            · rw [readAnyF_succ_124 f d hb] at h
              obtain ⟨hd2, a, ha1, hv⟩ := mapRes_ok_elim (Option.some.inj h)
              obtain ⟨haa, hpp⟩ := readFloat32_facts (bump d 1)
              rw [hd2] at haa hpp
              simp only [bump] at haa hpp
              exact ⟨haa, by omega⟩
            · rw [readAnyF_succ_125 f d hb] at h
              obtain ⟨hd2, a, ha1, hv⟩ := mapRes_ok_elim (Option.some.inj h)
              have haa := readVarInt_arr (bump d 1)
              have hpp := readVarInt_pos_le (bump d 1)
              rw [hd2] at haa hpp
              simp only [bump] at haa hpp
              exact ⟨haa, by omega⟩
            · rw [readAnyF_succ_126 f d hb] at h
              have hinj := Option.some.inj h
              injection hinj with hinj1 hinj2
              subst hinj2
              exact ⟨rfl, by simp [bump]⟩
            · rw [readAnyF_succ_127 f d hb] at h
              have hinj := Option.some.inj h
              injection hinj with hinj1 hinj2
              subst hinj2
              exact ⟨rfl, by simp [bump]⟩
    · cases n with
      | zero =>
        rw [readPairsF] at h
        have hinj := Option.some.inj h
        injection hinj with hinj1 hinj2
        subst hinj2
        exact ⟨rfl, Nat.le_refl _⟩
      | succ m =>
        rw [readPairsF] at h
        cases hk : readVarString d with
        | mk rk d1 =>
          rw [hk] at h
          cases rk with
          | error e => exact absurd h (by simp)
          | ok k =>
            dsimp only at h
            have hka : d1.arr = d.arr := by
              have h3 : (readVarString d).2.arr = d.arr := by
                rw [readVarString_eq]
                exact (readVarUint8Array_props d).1
              rw [hk] at h3
              exact h3
            have hkp : d.pos ≤ d1.pos := by
              have h3 : d.pos ≤ (readVarString d).2.pos := by
                rw [readVarString_eq]
                exact (readVarUint8Array_props d).2.1
              rw [hk] at h3
              exact h3
            cases ha : readAnyF f d1 with
            | none =>
              rw [ha] at h
              exact Option.noConfusion h
            | some ar =>
              rw [ha] at h
              obtain ⟨ares, d2⟩ := ar
              cases ares with
              | error e => exact absurd h (by simp)
              | ok v =>
                dsimp only at h
                obtain ⟨ha1, ha2⟩ := ihA d1 v d2 ha
                cases hp : readPairsF f m d2 with
                | none =>
                  rw [hp] at h
                  exact Option.noConfusion h
                | some pr =>
                  rw [hp] at h
                  obtain ⟨pres, d3⟩ := pr
                  cases pres with
                  | error e => exact absurd h (by simp)
                  | ok ps =>
                    have hinj := Option.some.inj h
                    injection hinj with hinj1 hinj2
                    subst hinj2
                    obtain ⟨hp1, hp2⟩ := ihP m d2 ps d3 hp
                    exact ⟨by rw [hp1, ha1, hka], by omega⟩
    · cases n with
      | zero =>
        rw [readElemsF] at h
        have hinj := Option.some.inj h
        injection hinj with hinj1 hinj2
        subst hinj2
        exact ⟨rfl, Nat.le_refl _⟩
      | succ m =>
        rw [readElemsF] at h
        cases ha : readAnyF f d with
        | none =>
          rw [ha] at h
          exact Option.noConfusion h
        | some ar =>
          rw [ha] at h
          obtain ⟨ares, d1⟩ := ar
          cases ares with
          | error e => exact absurd h (by simp)
          | ok v =>
            dsimp only at h
            obtain ⟨ha1, ha2⟩ := ihA d v d1 ha
            cases hp : readElemsF f m d1 with
            | none =>
              rw [hp] at h
              exact Option.noConfusion h
            | some pr =>
              rw [hp] at h
              obtain ⟨pres, d2⟩ := pr
              cases pres with
              | error e => exact absurd h (by simp)
              | ok vs =>
                have hinj := Option.some.inj h
                injection hinj with hinj1 hinj2
                subst hinj2
                obtain ⟨hp1, hp2⟩ := ihE m d1 vs d2 hp
                exact ⟨by rw [hp1, ha1], by omega⟩

theorem readAnyF_ok_pos_lt {f : Nat} {d : Decoder} {v : Any} {d' : Decoder}
    (h : readAnyF f d = some (.ok v, d')) : d.pos < d.arr.length := by
  cases f with
  | zero =>
    rw [readAnyF] at h
    exact Option.noConfusion h
  | succ f =>
    cases hb : byteAt d d.pos with
    | none =>
      rw [readAnyF_succ_none f d hb] at h
      exact absurd h (by simp)
    | some t => exact lt_length_of_byteAt_some hb

theorem readAnyF_suff (fuel : Nat) :
    (∀ d, 2 * (d.arr.length - d.pos) + 1 ≤ fuel → (readAnyF fuel d).isSome = true)
    ∧ (∀ n d, 2 * (d.arr.length - d.pos) + 2 ≤ fuel → (readPairsF fuel n d).isSome = true)
    ∧ (∀ n d, 2 * (d.arr.length - d.pos) + 2 ≤ fuel → (readElemsF fuel n d).isSome = true) := by
  induction fuel with
  | zero =>
    refine ⟨fun d h => absurd h (by omega), fun n d h => absurd h (by omega),
      fun n d h => absurd h (by omega)⟩
  | succ f ih =>
    obtain ⟨ihA, ihP, ihE⟩ := ih
    refine ⟨fun d hf => ?_, fun n d hf => ?_, fun n d hf => ?_⟩
    · cases hb : byteAt d d.pos with
      | none => rw [readAnyF_succ_none f d hb]; rfl
      | some t =>
        have hpos : d.pos < d.arr.length := lt_length_of_byteAt_some hb
        by_cases h1 : t < 116
        · rw [readAnyF_succ_other f d t hb (Or.inl h1)]; rfl
        · by_cases h2 : 127 < t
          · rw [readAnyF_succ_other f d t hb (Or.inr h2)]; rfl
          · have hlo : 116 ≤ t := by omega
            have hhi : t ≤ 127 := by omega
            interval_cases t
            · rw [readAnyF_succ_116 f d hb]; rfl
            · rw [readAnyF_succ_117 f d hb]
              cases hv : readVarUint (bump d 1) with
              | mk r2 d2 =>
                cases r2 with
                | error e => rfl
                | ok len =>
                  dsimp only
                  have hvb := readVarUint_ok_bounds hv
                  have hva : d2.arr = (bump d 1).arr := by
                    have h3 := readVarUint_arr (bump d 1)
                    rw [hv] at h3
                    exact h3
                  simp only [bump] at hva hvb
                  have hsome := ihE len d2 (by rw [hva]; omega)
                  cases hp : readElemsF f len d2 with
                  | none => rw [hp] at hsome; exact absurd hsome (by simp)
                  | some pr =>
                    obtain ⟨pres, d3⟩ := pr
                    cases pres with
                    | error e => rfl
                    | ok vs => rfl
            · rw [readAnyF_succ_118 f d hb]
              cases hv : readVarUint (bump d 1) with
              | mk r2 d2 =>
                cases r2 with
                | error e => rfl
                | ok len =>
                  dsimp only
                  have hvb := readVarUint_ok_bounds hv
                  have hva : d2.arr = (bump d 1).arr := by
                    have h3 := readVarUint_arr (bump d 1)
                    rw [hv] at h3
                    exact h3
                  simp only [bump] at hva hvb
                  have hsome := ihP len d2 (by rw [hva]; omega)
                  cases hp : readPairsF f len d2 with
                  | none => rw [hp] at hsome; exact absurd hsome (by simp)
                  | some pr =>
                    obtain ⟨pres, d3⟩ := pr
                    cases pres with
                    | error e => rfl
                    | ok ps => rfl
            · rw [readAnyF_succ_119 f d hb]; rfl
            · rw [readAnyF_succ_120 f d hb]; rfl
            · rw [readAnyF_succ_121 f d hb]; rfl
            · rw [readAnyF_succ_122 f d hb]; rfl
            · rw [readAnyF_succ_123 f d hb]; rfl
            · rw [readAnyF_succ_124 f d hb]; rfl
            · rw [readAnyF_succ_125 f d hb]; rfl
            · rw [readAnyF_succ_126 f d hb]; rfl
            · rw [readAnyF_succ_127 f d hb]; rfl
    · cases n with
      | zero => rw [readPairsF]; rfl
      | succ m =>
        rw [readPairsF]
        cases hk : readVarString d with
        | mk rk d1 =>
          cases rk with
          | error e => rfl
          | ok k =>
            dsimp only
            have hkb : d.pos < d1.pos ∧ d1.pos ≤ d.arr.length := by
              have h3 := (readVarUint8Array_props d).2.2 k d1 (by rw [← readVarString_eq]; exact hk)
              exact h3
            have hka : d1.arr = d.arr := by
              have h3 := (readVarUint8Array_props d).1
              rw [← readVarString_eq, hk] at h3
              exact h3
            have hsome := ihA d1 (by rw [hka]; omega)
            cases ha : readAnyF f d1 with
            | none => rw [ha] at hsome; exact absurd hsome (by simp)
            | some ar =>
              obtain ⟨ares, d2⟩ := ar
              cases ares with
              | error e => rfl
              | ok v =>
                dsimp only
                obtain ⟨ha1, ha2⟩ := (readAnyF_progress f).1 d1 v d2 ha
                have ha3 : d1.pos < d1.arr.length := readAnyF_ok_pos_lt ha
                have hsome2 := ihP m d2 (by rw [ha1, hka]; rw [hka] at ha3; omega)
                cases hp : readPairsF f m d2 with
                | none => rw [hp] at hsome2; exact absurd hsome2 (by simp)
                | some pr =>
                  obtain ⟨pres, d3⟩ := pr
                  cases pres with
                  | error e => rfl
                  | ok ps => rfl
    · cases n with
      | zero => rw [readElemsF]; rfl
      | succ m =>
        rw [readElemsF]
        have hsome := ihA d (by omega)
        cases ha : readAnyF f d with
        | none => rw [ha] at hsome; exact absurd hsome (by simp)
        | some ar =>
          obtain ⟨ares, d1⟩ := ar
          cases ares with
          | error e => rfl
          | ok v =>
            dsimp only
            obtain ⟨ha1, ha2⟩ := (readAnyF_progress f).1 d v d1 ha
            have ha3 : d.pos < d.arr.length := readAnyF_ok_pos_lt ha
            have hsome2 := ihE m d1 (by rw [ha1]; omega)
            cases hp : readElemsF f m d1 with
            | none => rw [hp] at hsome2; exact absurd hsome2 (by simp)
            | some pr =>
              obtain ⟨pres, d2⟩ := pr
              cases pres with
              | error e => rfl
              | ok vs => rfl

theorem readAny_eq_readAnyF (d : Decoder) :
    readAnyF (2 * d.arr.length + 3) d = some (readAny d) := by
  have hsome := (readAnyF_suff (2 * d.arr.length + 3)).1 d (by omega)
  obtain ⟨r, hr⟩ := Option.isSome_iff_exists.mp hsome
  rw [hr, readAny, hr]
  rfl

theorem ReadsPairs_readPairsF {n : Nat} {d : Decoder} {ps : List (List Nat × Any)}
    {dEnd : Decoder} (h : ReadsPairs n d ps dEnd) :
    ∀ f, 2 * (d.arr.length - d.pos) + 2 ≤ f → readPairsF f n d = some (.ok ps, dEnd) := by
  induction h with
  | nil d0 =>
    intro f hf
    obtain ⟨f', rfl⟩ : ∃ f', f = f' + 1 := ⟨f - 1, by omega⟩
    rw [readPairsF]
  | cons hk hv hrest ih =>
    rename_i d d1 d2 d3 k v n ps
    intro f hf
    obtain ⟨f', rfl⟩ : ∃ f', f = f' + 1 := ⟨f - 1, by omega⟩
    rw [readPairsF, hk]
    dsimp only
    have hkb : d.pos < d1.pos ∧ d1.pos ≤ d.arr.length :=
      (readVarUint8Array_props d).2.2 k d1 (by rw [← readVarString_eq]; exact hk)
    have hka : d1.arr = d.arr := by
      have h3 := (readVarUint8Array_props d).1
      rw [← readVarString_eq, hk] at h3
      exact h3
    have hv' : readAnyF (2 * d1.arr.length + 3) d1 = some (readAny d1) := readAny_eq_readAnyF d1
    rw [hv] at hv'
    have hsome := (readAnyF_suff f').1 d1 (by rw [hka]; omega)
    obtain ⟨ar, har⟩ := Option.isSome_iff_exists.mp hsome
    have hdet : ar = ((.ok v : Except Err Any), d2) := readAnyF_det har hv'
    rw [hdet] at har
    rw [har]
    dsimp only
    obtain ⟨hpa, hpp⟩ := (readAnyF_progress f').1 d1 v d2 har
    have hlt : d1.pos < d1.arr.length := readAnyF_ok_pos_lt har
    rw [ih f' (by rw [hpa, hka]; rw [hka] at hlt; omega)]

theorem ReadsElems_readElemsF {n : Nat} {d : Decoder} {vs : List Any}
    {dEnd : Decoder} (h : ReadsElems n d vs dEnd) :
    ∀ f, 2 * (d.arr.length - d.pos) + 2 ≤ f → readElemsF f n d = some (.ok vs, dEnd) := by
  induction h with
  | nil d0 =>
    intro f hf
    obtain ⟨f', rfl⟩ : ∃ f', f = f' + 1 := ⟨f - 1, by omega⟩
    rw [readElemsF]
  | cons hv hrest ih =>
    rename_i d d1 d2 v n vs
    intro f hf
    obtain ⟨f', rfl⟩ : ∃ f', f = f' + 1 := ⟨f - 1, by omega⟩
    rw [readElemsF]
    have hv' : readAnyF (2 * d.arr.length + 3) d = some (readAny d) := readAny_eq_readAnyF d
    rw [hv] at hv'
    have hsome := (readAnyF_suff f').1 d (by omega)
    obtain ⟨ar, har⟩ := Option.isSome_iff_exists.mp hsome
    have hdet : ar = ((.ok v : Except Err Any), d1) := readAnyF_det har hv'
    rw [hdet] at har
    rw [har]
    dsimp only
    obtain ⟨hpa, hpp⟩ := (readAnyF_progress f').1 d v d1 har
    have hlt : d.pos < d.arr.length := readAnyF_ok_pos_lt har
    rw [ih f' (by rw [hpa]; omega)]

/-- C3: `readAny` reads one tag byte and dispatches on it exactly as the
source's lookup table indexed by `127 - tag`: each of the 12 defined tag
bytes 127 down to 116 decodes through its correct case — `undefined`,
`null`, signed varint integer, float32, float64, int64, boolean `false`,
boolean `true`, string, string-keyed record (a varUint count followed by
that many key/value pairs read in order), array (a varUint count followed
by that many values read in order), byte blob — and the reserved tag byte
115, which has no table entry, is the fatal `UnknownTag` condition. -/
theorem readAny_dispatch (d : Decoder) (t : Nat) (h : byteAt d d.pos = some t) :
    (t = 127 → readAny d = (.ok .undefined, bump d 1))
    ∧ (t = 126 → readAny d = (.ok .null, bump d 1))
    ∧ (t = 125 → readAny d = mapRes Any.integer (readVarInt (bump d 1)))
    ∧ (t = 124 → readAny d = mapRes Any.float32 (readFloat32 (bump d 1)))
    ∧ (t = 123 → readAny d = mapRes Any.float64 (readFloat64 (bump d 1)))
    ∧ (t = 122 → readAny d = mapRes Any.int64 (readBigInt64 (bump d 1)))
    ∧ (t = 121 → readAny d = (.ok (.boolean false), bump d 1))
    ∧ (t = 120 → readAny d = (.ok (.boolean true), bump d 1))
    ∧ (t = 119 → readAny d = mapRes Any.string (readVarString (bump d 1)))
    ∧ (t = 118 → ∀ len d2 ps d3, readVarUint (bump d 1) = (.ok len, d2) →
        ReadsPairs len d2 ps d3 → readAny d = (.ok (.record ps), d3))
    ∧ (t = 117 → ∀ len d2 vs d3, readVarUint (bump d 1) = (.ok len, d2) →
        ReadsElems len d2 vs d3 → readAny d = (.ok (.array vs), d3))
    ∧ (t = 116 → readAny d = mapRes Any.bytes (readVarUint8Array (bump d 1)))
    ∧ (t = 115 → readAny d = (.error .UnknownTag, bump d 1)) := by
  have hF : ∀ r, readAnyF (2 * d.arr.length + 3) d = some r → readAny d = r := by
    intro r hr
    have h2 := readAny_eq_readAnyF d
    rw [hr] at h2
    exact (Option.some.inj h2).symm
  have hsplit : 2 * d.arr.length + 3 = (2 * d.arr.length + 2) + 1 := by omega
  refine ⟨?_, ?_, ?_, ?_, ?_, ?_, ?_, ?_, ?_, ?_, ?_, ?_, ?_⟩
  · intro ht
    subst ht
    exact hF _ (by rw [hsplit]; exact readAnyF_succ_127 _ d h)
  · intro ht
    subst ht
    exact hF _ (by rw [hsplit]; exact readAnyF_succ_126 _ d h)
  · intro ht
    subst ht
    exact hF _ (by rw [hsplit]; exact readAnyF_succ_125 _ d h)
  · intro ht
    subst ht
    exact hF _ (by rw [hsplit]; exact readAnyF_succ_124 _ d h)
  · intro ht
    subst ht
    exact hF _ (by rw [hsplit]; exact readAnyF_succ_123 _ d h)
  · intro ht
    subst ht
    exact hF _ (by rw [hsplit]; exact readAnyF_succ_122 _ d h)
  · intro ht
    subst ht
    exact hF _ (by rw [hsplit]; exact readAnyF_succ_121 _ d h)
  · intro ht
    subst ht
    exact hF _ (by rw [hsplit]; exact readAnyF_succ_120 _ d h)
  · intro ht
    subst ht
    exact hF _ (by rw [hsplit]; exact readAnyF_succ_119 _ d h)
  · intro ht len d2 ps d3 hlen hps
    subst ht
    have hva : d2.arr = d.arr := by
      have h3 := readVarUint_arr (bump d 1)
      rw [hlen] at h3
      simpa [bump] using h3
    have hP := ReadsPairs_readPairsF hps (2 * d.arr.length + 2) (by rw [hva]; omega)
    apply hF
    rw [hsplit, readAnyF_succ_118 _ d h, hlen]
    dsimp only
    rw [hP]
  · intro ht len d2 vs d3 hlen hvs
    subst ht
    have hva : d2.arr = d.arr := by
      have h3 := readVarUint_arr (bump d 1)
      rw [hlen] at h3
      simpa [bump] using h3
    have hE := ReadsElems_readElemsF hvs (2 * d.arr.length + 2) (by rw [hva]; omega)
    apply hF
    rw [hsplit, readAnyF_succ_117 _ d h, hlen]
    dsimp only
    rw [hE]
  · intro ht
    subst ht
    exact hF _ (by rw [hsplit]; exact readAnyF_succ_116 _ d h)
  · intro ht
    subst ht
    exact hF _ (by rw [hsplit]; exact readAnyF_succ_other _ d 115 h (Or.inl (by omega)))

/-- Witness for C3 at a concrete record input: the stream
`[118, 1, 1, 97, 120]` (record tag, pair count 1, key length 1, key byte
97, boolean-true tag) decodes to the record `[([97], true)]` with the
cursor at 5. -/
theorem readAny_dispatch_witness :
    byteAt (createDecoder [118, 1, 1, 97, 120]) (createDecoder [118, 1, 1, 97, 120]).pos
        = some 118
    ∧ readAny (createDecoder [118, 1, 1, 97, 120]) =
        (.ok (.record [([97], .boolean true)]), ⟨[118, 1, 1, 97, 120], 5⟩) := by
  refine ⟨by rfl, ?_⟩
  exact (readAny_dispatch (createDecoder [118, 1, 1, 97, 120]) 118
      (by rfl)).2.2.2.2.2.2.2.2.2.1 rfl 1 ⟨[118, 1, 1, 97, 120], 2⟩
    [([97], .boolean true)] ⟨[118, 1, 1, 97, 120], 5⟩ (by rfl)
    (ReadsPairs.cons (by rfl) (by rfl) (ReadsPairs.nil _))

end Lib0
